import Mathlib

/- Shallow embedding of the validatebackups repository (Go).
   Source of truth: src/validateBackups.go and src/types.go.
   Remote buckets are modelled as finite lists of object descriptors, the
   iterator-based Go loops become folds and structural recursions, and Go
   errors (package juju/errors plus fmt.Errorf %w wrapping) become an
   inductive error type. -/

namespace VB

/- Object descriptor, modelling storage.ObjectAttrs as used by the code:
   only Name, Created, Size and CRC32C are ever read. Created is the
   creation time in nanoseconds since the epoch (Go time.Time), Size is the
   object size in bytes (Go int64), crc32c the Castagnoli checksum. -/
structure ObjAttrs where
  name : String
  created : Int
  deriving Repr, DecidableEq

/- Error model: juju/errors categorised errors (NotFound, NotValid,
   AlreadyExists), plain fmt.Errorf errors, and fmt.Errorf with a %w verb
   which wraps an inner error while keeping its category visible to
   errors.Is. -/
inductive GoErr where
  | notFoundf (msg : String)
  | notValidf (msg : String)
  | alreadyExistsf (msg : String)
  | otherErr (msg : String)
  | wrapped (msg : String) (inner : GoErr)
  deriving Repr, DecidableEq

/- Follows the chain of %w wraps down to the categorised error, the way
   errors.Is does. -/
def GoErr.root : GoErr → GoErr
  | .wrapped _ inner => inner.root
  | e => e

/- Tests modelling errors.Is(err, errors.NotFound) and friends. -/
def GoErr.isNotFound (e : GoErr) : Bool :=
  match e.root with
  | .notFoundf _ => true
  | _ => false

def GoErr.isNotValid (e : GoErr) : Bool :=
  match e.root with
  | .notValidf _ => true
  | _ => false

def GoErr.isAlreadyExists (e : GoErr) : Bool :=
  match e.root with
  | .alreadyExistsf _ => true
  | _ => false

/- Configuration types from src/types.go. Go ints are modelled as Int. -/
structure BucketToProcess where
  name : String
  type : String
  deriving Repr, DecidableEq

structure ServerFileValidationRules where
  oldestFileMaxAgeInDays : Int
  newestFileMaxAgeInDays : Int
  deriving Repr, DecidableEq

structure FileDownloadRules where
  serverBackups : Int
  episodesFromEachShow : Int
  photosFromThisMonth : Int
  photosFromEachYear : Int
  deriving Repr, DecidableEq

structure Config where
  fileDownloadLocation : String
  serverBackupRules : ServerFileValidationRules
  filesToDownload : FileDownloadRules
  buckets : List BucketToProcess
  maxDownloadRetries : Int
  deriving Repr, DecidableEq

/- getBucketValidationTypeFromNameAndConfig: linear lookup of the bucket
   name in the configured list. -/
def getBucketValidationTypeFromNameAndConfig (name : String) (configs : List BucketToProcess) : Except GoErr String :=
  match configs with
  | [] => .error (.notFoundf ("Unable to find validation type for bucket named " ++ name ++ " in config"))
  | c :: rest =>
      if name = c.name then .ok c.type
      else getBucketValidationTypeFromNameAndConfig name rest

/- Nanoseconds in one day: time.Hour * 24 as a Go time.Duration. -/
def nsPerDay : Int := 86400000000000

/- getOldestObjectFromBucket: one full enumeration of the bucket keeping
   the first object whose Created all later objects fail to precede
   (strict Before comparison, ties keep the first seen). The bucket is the
   finite list of descriptors its iterator yields. -/
def getOldestObjectFromBucket (bucketObjs : List ObjAttrs) : Option ObjAttrs :=
  bucketObjs.foldl
    (fun oldest objAttrs =>
      match oldest with
      | none => some objAttrs
      | some best => if objAttrs.created < best.created then some objAttrs else some best)
    none

/- getNewestObjectFromBucket: same scan with the strict After comparison. -/
def getNewestObjectFromBucket (bucketObjs : List ObjAttrs) : Option ObjAttrs :=
  bucketObjs.foldl
    (fun newest objAttrs =>
      match newest with
      | none => some objAttrs
      | some best => if best.created < objAttrs.created then some objAttrs else some best)
    none

/- validateServerBackups, with time.Since(t) = now - t.  The age in days is
   Go integer division of the int64 nanosecond Duration by 24h, which
   truncates toward zero: Int.tdiv.  A None result is a nil error. -/
def validateServerBackups (now : Int) (bucketObjs : List ObjAttrs) (rules : ServerFileValidationRules) : Option GoErr :=
  match getOldestObjectFromBucket bucketObjs with
  | none => some (.otherErr "unable to get oldest object in bucket")
  | some oldestObjAttrs =>
      let oldestFileAgeInDays : Int := Int.tdiv (now - oldestObjAttrs.created) nsPerDay
      if rules.oldestFileMaxAgeInDays ≤ oldestFileAgeInDays then
        some (.notValidf ("Oldest file " ++ oldestObjAttrs.name ++ " was created too long in the past. Check backup file archiving."))
      else
        match getNewestObjectFromBucket bucketObjs with
        | none => some (.otherErr "unable to get newest object in bucket:")
        | some newestObjAttrs =>
            let newestFileAgeInDays : Int := Int.tdiv (now - newestObjAttrs.created) nsPerDay
            if rules.newestFileMaxAgeInDays ≤ newestFileAgeInDays then
              some (.notValidf ("Newest file " ++ newestObjAttrs.name ++ " was created too long in the past. Make sure backups are running"))
            else none

/- validateBucket: classify by name, then dispatch.  In the Go code a
   failed classification leaves validationType as the empty string, which
   falls through to the default NotFound case. -/
def validateBucket (now : Int) (bucketName : String) (bucketObjs : List ObjAttrs) (config : Config) : Option GoErr :=
  let validationType :=
    match getBucketValidationTypeFromNameAndConfig bucketName config.buckets with
    | .ok t => t
    | .error _ => ""
  match validationType with
  | "media" => none
  | "photo" => none
  | "server-backup" =>
      match validateServerBackups now bucketObjs config.serverBackupRules with
      | some e => some (.wrapped ("error validating bucket " ++ bucketName ++ " as type server-backup") e)
      | none => none
  | t => some (.notFoundf ("No matching validation logic for bucket " ++ bucketName ++ " with validation type " ++ t))

/- Inner loop of getServerBackupsToDownload: scan the fixed-size slot
   array left to right; the first empty slot takes the candidate and the
   scan stops; otherwise, when the candidate was created strictly after
   the occupant (Created.After), they swap and the displaced occupant
   carries on down the array; a candidate that falls off the end is
   discarded. -/
def insertIntoRecentSlots : List (Option ObjAttrs) → ObjAttrs → List (Option ObjAttrs)
  | [], _ => []
  | none :: rest, objAttrs => some objAttrs :: rest
  | some file :: rest, objAttrs =>
      if file.created < objAttrs.created then
        some objAttrs :: insertIntoRecentSlots rest file
      else
        some file :: insertIntoRecentSlots rest objAttrs

/- getServerBackupsToDownload: fold the whole bucket through the slot
   array of length rules.ServerBackups, then fail with NotFound when the
   last slot is still nil.  Indexing files[ServerBackups-1] with
   ServerBackups = 0 panics in Go; the model returns the panic as an
   error.  The final Go loop reads file.Name from every slot; slots are
   filled strictly left to right, so when the last slot is non-nil every
   slot is, and the filterMap reads exactly the K names. -/
def serverBackupSlots (bucketObjs : List ObjAttrs) (rules : FileDownloadRules) : List (Option ObjAttrs) :=
  bucketObjs.foldl insertIntoRecentSlots (List.replicate rules.serverBackups.toNat none)

def getServerBackupsToDownload (bucketObjs : List ObjAttrs) (rules : FileDownloadRules) : Except GoErr (List String) :=
  match (serverBackupSlots bucketObjs rules)[rules.serverBackups.toNat - 1]? with
  | none => .error (.otherErr "panic: runtime error: index out of range")
  | some none => .error (.notFoundf ("Unable to find " ++ toString rules.serverBackups ++ " most recent files because there were not enough files in bucket"))
  | some (some _) => .ok ((serverBackupSlots bucketObjs rules).filterMap (fun slot => slot.map ObjAttrs.name))

/- Specification-side recency order: recentOrder a b holds when a was
   created no earlier than b, so a list sorted by recentOrder is newest
   first. -/
def recentOrder (a b : ObjAttrs) : Prop := b.created ≤ a.created

instance : DecidableRel recentOrder := fun a b => by
  unfold recentOrder; infer_instance

instance : IsTotal ObjAttrs recentOrder :=
  ⟨fun a b => le_total b.created a.created⟩

instance : IsTrans ObjAttrs recentOrder :=
  ⟨fun _ _ _ h1 h2 => le_trans h2 h1⟩

/- Specification-side bounded top-K: keep at most kSlots descriptors,
   sorted newest first, inserting each new descriptor in order and
   truncating. -/
def topKStep (kSlots : Nat) (s : List ObjAttrs) (x : ObjAttrs) : List ObjAttrs :=
  List.take kSlots (List.orderedInsert recentOrder x s)

def topK (kSlots : Nat) (l : List ObjAttrs) : List ObjAttrs :=
  l.foldl (topKStep kSlots) []

/- Slot arrays reachable by the Go loop: a filled sorted block followed by
   empty slots. -/
def toSlots (kSlots : Nat) (s : List ObjAttrs) : List (Option ObjAttrs) :=
  s.map some ++ List.replicate (kSlots - s.length) none

/- Pairwise-distinct creation times, the premise of the claim. -/
def distinctCreated (l : List ObjAttrs) : Prop :=
  l.Pairwise (fun a b => a.created ≠ b.created)

lemma distinctCreated_symm : Symmetric (fun a b : ObjAttrs => a.created ≠ b.created) := by
  intro a b hab
  exact hab.symm

lemma toSlots_nil (kSlots : Nat) : toSlots kSlots [] = List.replicate kSlots none := by
  simp [toSlots]

lemma toSlots_cons (kSlots : Nat) (y : ObjAttrs) (s : List ObjAttrs) :
    toSlots (kSlots + 1) (y :: s) = some y :: toSlots kSlots s := by
  simp [toSlots, Nat.succ_sub_succ]

lemma orderedInsert_head_of_sorted {y : ObjAttrs} {s : List ObjAttrs}
    (hs : (y :: s).Sorted recentOrder) :
    List.orderedInsert recentOrder y s = y :: s := by
  cases s with
  | nil => rfl
  | cons z rest =>
      have hr : recentOrder y z := (List.sorted_cons.mp hs).1 z (by simp)
      simp [List.orderedInsert, hr]

/- One candidate through the slot scan agrees with ordered insertion plus
   truncation, on any sorted slot state with distinct creation times. -/
lemma insertIntoRecentSlots_toSlots :
    ∀ (s : List ObjAttrs) (kSlots : Nat) (x : ObjAttrs),
      s.Sorted recentOrder → distinctCreated s → s.length ≤ kSlots →
      (∀ y ∈ s, x.created ≠ y.created) →
      insertIntoRecentSlots (toSlots kSlots s) x = toSlots kSlots (topKStep kSlots s x)
  | [], kSlots, x, _, _, _, _ => by
      cases kSlots with
      | zero => simp [toSlots, topKStep, insertIntoRecentSlots]
      | succ k =>
          simp only [toSlots_nil, List.replicate_succ, insertIntoRecentSlots, topKStep,
            List.orderedInsert_nil, List.take_succ_cons, List.take_nil]
          simp [toSlots, List.replicate_succ]
  | y :: s', kSlots, x, hsort, hdistS, hlen, hdist => by
      cases kSlots with
      | zero => simp at hlen
      | succ k =>
          have hsort' : s'.Sorted recentOrder := hsort.of_cons
          have hdistS' : distinctCreated s' := (List.pairwise_cons.mp hdistS).2
          have hyS' : ∀ z ∈ s', y.created ≠ z.created := (List.pairwise_cons.mp hdistS).1
          have hlen' : s'.length ≤ k := by simpa using hlen
          have hxy : x.created ≠ y.created := hdist y (by simp)
          rw [toSlots_cons]
          by_cases hnew : y.created < x.created
          · have step : insertIntoRecentSlots (some y :: toSlots k s') x
                = some x :: insertIntoRecentSlots (toSlots k s') y := by
              simp [insertIntoRecentSlots, hnew]
            rw [step, insertIntoRecentSlots_toSlots s' k y hsort' hdistS' hlen' hyS']
            have hins : List.orderedInsert recentOrder y s' = y :: s' :=
              orderedInsert_head_of_sorted hsort
            have hr : recentOrder x y := le_of_lt hnew
            simp only [topKStep, hins]
            have : List.orderedInsert recentOrder x (y :: s') = x :: y :: s' := by
              simp [List.orderedInsert, hr]
            rw [this, List.take_succ_cons, toSlots_cons]
          · have hlt : x.created < y.created := lt_of_le_of_ne (not_lt.mp hnew) hxy
            have hnr : ¬ recentOrder x y := not_le.mpr hlt
            have step : insertIntoRecentSlots (some y :: toSlots k s') x
                = some y :: insertIntoRecentSlots (toSlots k s') x := by
              simp [insertIntoRecentSlots, hnew]
            have hdist' : ∀ z ∈ s', x.created ≠ z.created := fun z hz => hdist z (by simp [hz])
            rw [step, insertIntoRecentSlots_toSlots s' k x hsort' hdistS' hlen' hdist']
            simp only [topKStep]
            have : List.orderedInsert recentOrder x (y :: s')
                = y :: List.orderedInsert recentOrder x s' := by
              simp [List.orderedInsert, hnr]
            rw [this, List.take_succ_cons, toSlots_cons]

lemma sorted_topKStep (kSlots : Nat) (s : List ObjAttrs) (x : ObjAttrs)
    (hs : s.Sorted recentOrder) : (topKStep kSlots s x).Sorted recentOrder :=
  (List.Sorted.orderedInsert x s hs).sublist (List.take_sublist _ _)

lemma distinctCreated_topKStep (kSlots : Nat) (s : List ObjAttrs) (x : ObjAttrs)
    (hd : distinctCreated s) (hx : ∀ y ∈ s, x.created ≠ y.created) :
    distinctCreated (topKStep kSlots s x) := by
  have hperm : (List.orderedInsert recentOrder x s).Perm (x :: s) :=
    List.perm_orderedInsert recentOrder x s
  have hcons : distinctCreated (x :: s) := List.pairwise_cons.mpr ⟨hx, hd⟩
  have hoi : distinctCreated (List.orderedInsert recentOrder x s) :=
    (hperm.pairwise_iff (by intro a b hab; exact hab.symm)).mpr hcons
  exact hoi.sublist (List.take_sublist _ _)

lemma length_topKStep (kSlots : Nat) (s : List ObjAttrs) (x : ObjAttrs) :
    (topKStep kSlots s x).length = min kSlots (s.length + 1) := by
  simp [topKStep, List.orderedInsert_length]

lemma mem_topKStep {kSlots : Nat} {s : List ObjAttrs} {x y : ObjAttrs}
    (hy : y ∈ topKStep kSlots s x) : y = x ∨ y ∈ s :=
  (List.mem_orderedInsert recentOrder).mp (List.take_subset _ _ hy)

/- The whole enumeration through the slot array agrees with the spec-side
   bounded top-K fold. -/
lemma foldl_insertIntoRecentSlots :
    ∀ (l s : List ObjAttrs) (kSlots : Nat),
      s.Sorted recentOrder → distinctCreated s → s.length ≤ kSlots →
      (∀ x ∈ l, ∀ y ∈ s, x.created ≠ y.created) → distinctCreated l →
      l.foldl insertIntoRecentSlots (toSlots kSlots s) = toSlots kSlots (l.foldl (topKStep kSlots) s)
  | [], _, _, _, _, _, _, _ => rfl
  | x :: l', s, kSlots, hsort, hdistS, hlen, hcross, hdistL => by
      have hx : ∀ y ∈ s, x.created ≠ y.created := hcross x (by simp)
      rw [List.foldl_cons, List.foldl_cons,
        insertIntoRecentSlots_toSlots s kSlots x hsort hdistS hlen hx]
      refine foldl_insertIntoRecentSlots l' (topKStep kSlots s x) kSlots
        (sorted_topKStep kSlots s x hsort)
        (distinctCreated_topKStep kSlots s x hdistS hx)
        (by rw [length_topKStep]; omega)
        ?_ (List.pairwise_cons.mp hdistL).2
      intro z hz y hy
      rcases mem_topKStep hy with rfl | hyS
      · exact ((List.pairwise_cons.mp hdistL).1 z hz).symm
      · exact hcross z (by simp [hz]) y hyS

lemma length_foldl_topKStep (kSlots : Nat) :
    ∀ (l s : List ObjAttrs), s.length ≤ kSlots →
      (l.foldl (topKStep kSlots) s).length = min kSlots (s.length + l.length)
  | [], s, hs => by simp; omega
  | x :: l', s, hs => by
      rw [List.foldl_cons,
        length_foldl_topKStep kSlots l' (topKStep kSlots s x) (by rw [length_topKStep]; omega)]
      rw [length_topKStep]
      simp only [List.length_cons]
      omega

/- The Go selection, on a bucket with distinct creation times and a
   positive configured count, either fails with NotFound (too few files)
   or returns the names of the spec-side top-K fold. -/
lemma getServerBackupsToDownload_spec (bucketObjs : List ObjAttrs) (rules : FileDownloadRules)
    (hk : 0 < rules.serverBackups) (hdist : distinctCreated bucketObjs) :
    getServerBackupsToDownload bucketObjs rules =
      if bucketObjs.length < rules.serverBackups.toNat then
        .error (.notFoundf ("Unable to find " ++ toString rules.serverBackups ++ " most recent files because there were not enough files in bucket"))
      else .ok ((topK rules.serverBackups.toNat bucketObjs).map ObjAttrs.name) := by
  have hk' : 0 < rules.serverBackups.toNat := by omega
  have hfold : serverBackupSlots bucketObjs rules
      = toSlots rules.serverBackups.toNat (topK rules.serverBackups.toNat bucketObjs) := by
    rw [serverBackupSlots, ← toSlots_nil]
    exact foldl_insertIntoRecentSlots bucketObjs [] rules.serverBackups.toNat
      (by simp) (by simp [distinctCreated]) (by simp) (by simp) hdist
  have hlen : (topK rules.serverBackups.toNat bucketObjs).length
      = min rules.serverBackups.toNat bucketObjs.length := by
    have := length_foldl_topKStep rules.serverBackups.toNat bucketObjs [] (by simp)
    simpa [topK] using this
  unfold getServerBackupsToDownload
  rw [hfold]
  set k := rules.serverBackups.toNat with hkdef
  set t := topK k bucketObjs with htdef
  by_cases hc : bucketObjs.length < k
  · have hlt : t.length ≤ k - 1 := by omega
    have hget : (toSlots k t)[k - 1]? = some none := by
      rw [toSlots, List.getElem?_append]
      have h1 : ¬ (k - 1 < (t.map ObjAttrs.name).length) := by simp; omega
      have h2 : ¬ (k - 1 < (t.map some).length) := by simp; omega
      rw [if_neg h2]
      rw [List.getElem?_replicate]
      rw [if_pos (by simp; omega)]
    rw [hget]
    simp [hc]
  · have hteq : t.length = k := by omega
    have hget : ∃ a, (toSlots k t)[k - 1]? = some (some a) := by
      have hlt : k - 1 < (t.map some).length := by simp; omega
      have hlt' : k - 1 < t.length := by omega
      refine ⟨t[k-1], ?_⟩
      rw [toSlots, List.getElem?_append, if_pos hlt, List.getElem?_map,
        List.getElem?_eq_getElem hlt']
      rfl
    obtain ⟨a, hget⟩ := hget
    rw [hget]
    have hfm : (toSlots k t).filterMap (fun slot => slot.map ObjAttrs.name)
        = t.map ObjAttrs.name := by
      rw [toSlots, List.filterMap_append]
      have hrep : (List.replicate (k - t.length) (none : Option ObjAttrs)).filterMap
          (fun slot => slot.map ObjAttrs.name) = [] := by
        rw [hteq]
        simp
      rw [hrep, List.append_nil]
      simp [List.filterMap_map]
    rw [hfm]
    simp [hc]

/- When the whole input fits in the slots the top-K fold is a permutation
   of the input. -/
lemma topK_perm (kSlots : Nat) :
    ∀ (l s : List ObjAttrs), s.length + l.length ≤ kSlots →
      (l.foldl (topKStep kSlots) s).Perm (s ++ l)
  | [], s, _ => by simp
  | x :: l', s, h => by
      have hlen : s.length + 1 ≤ kSlots := by simp at h; omega
      have hstep : topKStep kSlots s x = List.orderedInsert recentOrder x s := by
        apply List.take_of_length_le
        simp [List.orderedInsert_length]; omega
      rw [List.foldl_cons]
      have IH := topK_perm kSlots l' (topKStep kSlots s x)
        (by rw [length_topKStep]; simp at h ⊢; omega)
      refine IH.trans ?_
      rw [hstep]
      refine ((List.perm_orderedInsert recentOrder x s).append_right l').trans ?_
      exact List.perm_middle.symm

/- Invariant of the bounded top-K fold: the state is sorted newest first,
   has distinct creation times, holds min(K, seen) of the descriptors seen
   so far, and any seen creation time missing from the state is strictly
   older than everything in the state. -/
structure TopKInv (kSlots : Nat) (processed s : List ObjAttrs) : Prop where
  sorted : s.Sorted recentOrder
  distinct : distinctCreated s
  mem : ∀ x ∈ s, x ∈ processed
  len : s.length = min kSlots processed.length
  dominates : ∀ y ∈ processed, (∀ x ∈ s, x.created ≠ y.created) → ∀ x ∈ s, y.created < x.created

lemma orderedInsert_append_of_forall_not (x : ObjAttrs) :
    ∀ (s : List ObjAttrs), (∀ z ∈ s, ¬ recentOrder x z) →
      List.orderedInsert recentOrder x s = s ++ [x]
  | [], _ => rfl
  | z :: rest, h => by
      have hz : ¬ recentOrder x z := h z (by simp)
      simp only [List.orderedInsert, if_neg hz, List.cons_append, List.cons.injEq, true_and]
      exact orderedInsert_append_of_forall_not x rest (fun w hw => h w (by simp [hw]))

/- A sorted list of length m + 1 splits into its first m elements and a
   final element below all of them. -/
lemma sorted_split_last {u : List ObjAttrs} {m : Nat}
    (hs : u.Sorted recentOrder) (hl : u.length = m + 1) :
    ∃ d, u = u.take m ++ [d] ∧ ∀ z ∈ u.take m, recentOrder z d := by
  have hdrop : (u.drop m).length = 1 := by simp [hl]
  obtain ⟨d, hd⟩ := List.length_eq_one.mp hdrop
  refine ⟨d, ?_, ?_⟩
  · conv_lhs => rw [← List.take_append_drop m u]
    rw [hd]
  · intro z hz
    have hsplit : (u.take m ++ [d]).Sorted recentOrder := by
      rw [← hd, List.take_append_drop]
      exact hs
    exact (List.pairwise_append.mp hsplit).2.2 z hz d (by simp)

/- Creation-time coverage: a distinct-created selection out of a
   distinct-created population of the same length covers every creation
   time of the population. -/
lemma created_cover {s p : List ObjAttrs}
    (hds : distinctCreated s) (hdp : distinctCreated p)
    (hmem : ∀ z ∈ s, z ∈ p) (hlen : s.length = p.length) :
    ∀ y ∈ p, ∃ z ∈ s, z.created = y.created := by
  intro y hy
  have hns : (s.map ObjAttrs.created).Nodup := List.pairwise_map.mpr hds
  have hnp : (p.map ObjAttrs.created).Nodup := List.pairwise_map.mpr hdp
  have hsub : (s.map ObjAttrs.created).toFinset ⊆ (p.map ObjAttrs.created).toFinset := by
    intro c hc
    rw [List.mem_toFinset] at hc ⊢
    obtain ⟨z, hz, rfl⟩ := List.mem_map.mp hc
    exact List.mem_map.mpr ⟨z, hmem z hz, rfl⟩
  have hcards : (p.map ObjAttrs.created).toFinset.card ≤ (s.map ObjAttrs.created).toFinset.card := by
    rw [List.toFinset_card_of_nodup hns, List.toFinset_card_of_nodup hnp]
    simp [hlen]
  have heq := Finset.eq_of_subset_of_card_le hsub hcards
  have hyc : y.created ∈ (s.map ObjAttrs.created).toFinset := by
    rw [heq, List.mem_toFinset]
    exact List.mem_map.mpr ⟨y, hy, rfl⟩
  rw [List.mem_toFinset] at hyc
  obtain ⟨z, hz, hzc⟩ := List.mem_map.mp hyc
  exact ⟨z, hz, hzc⟩

/- One step of the bounded top-K fold preserves the invariant. -/
lemma topKInv_step {kSlots : Nat} {processed s : List ObjAttrs} (x : ObjAttrs)
    (h : TopKInv kSlots processed s)
    (hp : distinctCreated processed)
    (hx : ∀ y ∈ processed, x.created ≠ y.created) :
    TopKInv kSlots (processed ++ [x]) (topKStep kSlots s x) := by
  have hxs : ∀ y ∈ s, x.created ≠ y.created := fun y hy => hx y (h.mem y hy)
  have husort : (List.orderedInsert recentOrder x s).Sorted recentOrder :=
    List.Sorted.orderedInsert x s h.sorted
  have hulen : (List.orderedInsert recentOrder x s).length = s.length + 1 := by
    simp [List.orderedInsert_length]
  have hudist : distinctCreated (List.orderedInsert recentOrder x s) :=
    ((List.perm_orderedInsert recentOrder x s).pairwise_iff
      (by intro a b hab; exact hab.symm)).mpr (List.pairwise_cons.mpr ⟨hxs, h.distinct⟩)
  have hsl : s.length ≤ kSlots := by have := h.len; omega
  rcases Nat.lt_or_ge s.length kSlots with hlt | hge
  · -- room left in the slots: nothing is dropped
    have hsp : s.length = processed.length := by have := h.len; omega
    have hstep : topKStep kSlots s x = List.orderedInsert recentOrder x s :=
      List.take_of_length_le (by omega)
    refine ⟨by rw [hstep]; exact husort, by rw [hstep]; exact hudist, ?_, ?_, ?_⟩
    · intro z hz
      rcases mem_topKStep hz with rfl | hzs
      · simp
      · exact List.mem_append_left _ (h.mem z hzs)
    · rw [hstep, hulen]
      have := h.len
      simp only [List.length_append, List.length_singleton]
      omega
    · intro y hy habs
      rw [hstep] at habs
      rcases List.mem_append.mp hy with hyp | hyx
      · -- a previously seen creation time absent from the new state is impossible here
        obtain ⟨z, hz, hzc⟩ := created_cover h.distinct hp h.mem hsp y hyp
        exact absurd hzc (habs z ((List.mem_orderedInsert recentOrder).mpr (Or.inr hz)))
      · have hyx' : y = x := by simpa using hyx
        subst hyx'
        exact absurd rfl (habs y ((List.mem_orderedInsert recentOrder).mpr (Or.inl rfl)))
  · -- slots are full: the oldest element of the inserted list is dropped
    have heq : s.length = kSlots := le_antisymm hsl hge
    obtain ⟨d, hdu, hdrel⟩ := sorted_split_last husort
      (show (List.orderedInsert recentOrder x s).length = kSlots + 1 by omega)
    have hstep : topKStep kSlots s x = (List.orderedInsert recentOrder x s).take kSlots := rfl
    have hddist : ∀ z ∈ (List.orderedInsert recentOrder x s).take kSlots, z.created ≠ d.created := by
      have := hudist
      rw [hdu] at this
      intro z hz
      exact (List.pairwise_append.mp this).2.2 z hz d (by simp)
    have hmemu : ∀ z ∈ (List.orderedInsert recentOrder x s).take kSlots,
        z ∈ (List.orderedInsert recentOrder x s).take kSlots ++ [d] := fun z hz =>
      List.mem_append_left _ hz
    refine ⟨sorted_topKStep kSlots s x h.sorted, distinctCreated_topKStep kSlots s x h.distinct hxs, ?_, ?_, ?_⟩
    · intro z hz
      rcases mem_topKStep hz with rfl | hzs
      · simp
      · exact List.mem_append_left _ (h.mem z hzs)
    · rw [length_topKStep]
      have := h.len
      simp only [List.length_append, List.length_singleton]
      omega
    · intro y hy habs
      rw [hstep] at habs
      by_cases hk0 : kSlots = 0
      · intro z hz
        rw [hstep, hk0] at hz
        simp at hz
      have hk1 : 0 < kSlots := Nat.pos_of_ne_zero hk0
      rcases List.mem_append.mp hy with hyp | hyx
      rotate_left
      · -- the new element itself was dropped: it must be d, the oldest of the inserted list
        have hyx' : y = x := by simpa using hyx
        have hxu : x ∈ (List.orderedInsert recentOrder x s).take kSlots ++ [d] := by
          rw [← hdu]
          exact (List.mem_orderedInsert recentOrder).mpr (Or.inl rfl)
        have hxd : x = d := by
          rcases List.mem_append.mp hxu with hin | hone
          · exact absurd (by rw [hyx'] : x.created = y.created) (habs x hin)
          · simpa using hone
        intro z hz
        rw [hstep] at hz
        have hle : d.created ≤ z.created := hdrel z hz
        have hne : z.created ≠ y.created := habs z hz
        have hne' : y.created ≠ z.created := Ne.symm hne
        rw [hyx', hxd] at hne' ⊢
        exact lt_of_le_of_ne hle hne'
      · by_cases hcover : ∃ z₀ ∈ s, z₀.created = y.created
        · -- the creation time was present before the step, so its holder was dropped: it is d
          obtain ⟨z₀, hz₀s, hz₀c⟩ := hcover
          have hz₀u : z₀ ∈ (List.orderedInsert recentOrder x s).take kSlots ++ [d] := by
            rw [← hdu]
            exact (List.mem_orderedInsert recentOrder).mpr (Or.inr hz₀s)
          have hz₀d : z₀ = d := by
            rcases List.mem_append.mp hz₀u with hin | hone
            · exact absurd hz₀c (habs z₀ hin)
            · simpa using hone
          intro z hz
          rw [hstep] at hz
          have hle : d.created ≤ z.created := hdrel z hz
          have hne : z.created ≠ d.created := hddist z hz
          rw [← hz₀d] at hle hne
          rw [← hz₀c]
          exact lt_of_le_of_ne hle (Ne.symm hne)
        · -- the creation time was already dropped earlier
          push_neg at hcover
          have hold : ∀ z ∈ s, y.created < z.created :=
            h.dominates y hyp (fun z hz => hcover z hz)
          intro z hz
          rcases mem_topKStep hz with hzx | hzs
          rotate_left
          · exact hold z hzs
          -- z = x: compare through the oldest element w of the old state
          obtain ⟨w, hws, hwrel⟩ := sorted_split_last h.sorted (show s.length = (kSlots - 1) + 1 by omega)
          have hwmem : w ∈ s := by
            rw [hws]; simp
          have hyw : y.created < w.created := hold w hwmem
          have hwx : w.created ≤ x.created := by
            by_contra hxw
            push_neg at hxw
            have hnr : ∀ v ∈ s, ¬ recentOrder x v := by
              intro v hv
              have hvw : w.created ≤ v.created := by
                rw [hws] at hv
                rcases List.mem_append.mp hv with hvt | hvw'
                · exact hwrel v hvt
                · simp at hvw'
                  rw [hvw']
              exact not_le.mpr (lt_of_lt_of_le hxw hvw)
            have hu' : List.orderedInsert recentOrder x s = s ++ [x] :=
              orderedInsert_append_of_forall_not x s hnr
            have hxs' : x ∈ s := by
              have htake : (List.orderedInsert recentOrder x s).take kSlots = s := by
                rw [hu', ← heq]
                exact List.take_left ..
              rw [hstep, htake] at hz
              rw [← hzx]
              exact hz
            exact absurd rfl (hx x (h.mem x hxs'))
          rw [hzx]
          exact lt_of_lt_of_le hyw hwx

/- The invariant holds along the whole fold. -/
lemma topK_inv_fold (kSlots : Nat) :
    ∀ (l processed s : List ObjAttrs),
      TopKInv kSlots processed s →
      distinctCreated (processed ++ l) →
      TopKInv kSlots (processed ++ l) (l.foldl (topKStep kSlots) s)
  | [], p, s, h, _ => by simpa using h
  | x :: l', p, s, h, hd => by
      have hp : distinctCreated p := hd.sublist (List.sublist_append_left ..)
      have hx : ∀ y ∈ p, x.created ≠ y.created := by
        intro y hy
        exact ((List.pairwise_append.mp hd).2.2 y hy x (by simp)).symm
      have hd' : distinctCreated ((p ++ [x]) ++ l') := by
        rw [List.append_assoc]
        simpa using hd
      have IH := topK_inv_fold kSlots l' (p ++ [x]) (topKStep kSlots s x)
        (topKInv_step x h hp hx) hd'
      rw [List.foldl_cons]
      have harr : (p ++ [x]) ++ l' = p ++ (x :: l') := by
        rw [List.append_assoc]
        rfl
      rw [harr] at IH
      exact IH

/- Every element kept by the top-K fold has at most K - 1 strictly newer
   peers in the whole input. -/
lemma countP_newer_le {kSlots : Nat} {l t : List ObjAttrs} (hdist : distinctCreated l)
    (hinv : TopKInv kSlots l t) {x : ObjAttrs} (hx : x ∈ t) :
    l.countP (fun y => decide (x.created < y.created)) ≤ kSlots - 1 := by
  have htlen : t.length ≤ kSlots := by have := hinv.len; omega
  have hcov : ∀ y ∈ l, x.created < y.created → ∃ z ∈ t, z.created = y.created := by
    intro y hy hlt
    by_contra hnone
    push_neg at hnone
    have hdom := hinv.dominates y hy (fun z hz hc => hnone z hz hc)
    exact absurd (hdom x hx) (lt_asymm hlt)
  have hcount : l.countP (fun y => decide (x.created < y.created))
      = (l.filter (fun y => decide (x.created < y.created))).length := by
    simp [List.countP_eq_length_filter]
  rw [hcount]
  have hNdist : distinctCreated (l.filter (fun y => decide (x.created < y.created))) :=
    hdist.sublist (List.filter_sublist l)
  have hNnodup : ((l.filter (fun y => decide (x.created < y.created))).map ObjAttrs.created).Nodup :=
    List.pairwise_map.mpr hNdist
  have hsub : ((l.filter (fun y => decide (x.created < y.created))).map ObjAttrs.created).toFinset
      ⊆ ((t.map ObjAttrs.created).toFinset).erase x.created := by
    intro c hc
    rw [List.mem_toFinset] at hc
    obtain ⟨y, hyN, rfl⟩ := List.mem_map.mp hc
    have hyl : y ∈ l := List.mem_of_mem_filter hyN
    have hylt : x.created < y.created := by
      have := List.of_mem_filter hyN
      simpa using this
    obtain ⟨z, hzt, hzc⟩ := hcov y hyl hylt
    refine Finset.mem_erase.mpr ⟨ne_of_gt hylt, ?_⟩
    rw [List.mem_toFinset]
    exact List.mem_map.mpr ⟨z, hzt, hzc⟩
  have hxmem : x.created ∈ (t.map ObjAttrs.created).toFinset := by
    rw [List.mem_toFinset]
    exact List.mem_map.mpr ⟨x, hx, rfl⟩
  have h1 : (l.filter (fun y => decide (x.created < y.created))).length
      = ((l.filter (fun y => decide (x.created < y.created))).map ObjAttrs.created).toFinset.card := by
    rw [List.toFinset_card_of_nodup hNnodup, List.length_map]
  have h2 := Finset.card_le_card hsub
  have h3 := Finset.card_erase_of_mem hxmem
  have h4 : (t.map ObjAttrs.created).toFinset.card ≤ t.length := by
    have := (t.map ObjAttrs.created).toFinset_card_le
    simpa using this
  have h5 : 0 < (t.map ObjAttrs.created).toFinset.card := Finset.card_pos.mpr ⟨x.created, hxmem⟩
  omega

/-- C2: getServerBackupsToDownload is a bounded top-K selection by recency.
For every bucket whose descriptors have pairwise distinct creation times and
a positive configured count K: with exactly K objects the returned keys are a
permutation of all the input keys; with more than K objects it returns K keys,
each borne by an input descriptor with at most K - 1 strictly newer peers in
the input; with fewer than K objects it fails with NotFound. -/
theorem c2_serverBackups_bounded_topK (bucketObjs : List ObjAttrs) (rules : FileDownloadRules)
    (hk : 0 < rules.serverBackups) (hdist : distinctCreated bucketObjs) :
    (bucketObjs.length = rules.serverBackups.toNat →
      ∃ keys, getServerBackupsToDownload bucketObjs rules = .ok keys ∧
        keys.Perm (bucketObjs.map ObjAttrs.name)) ∧
    (rules.serverBackups.toNat < bucketObjs.length →
      ∃ keys, getServerBackupsToDownload bucketObjs rules = .ok keys ∧
        keys.length = rules.serverBackups.toNat ∧
        ∀ key ∈ keys, ∃ x ∈ bucketObjs, x.name = key ∧
          bucketObjs.countP (fun y => decide (x.created < y.created)) ≤ rules.serverBackups.toNat - 1) ∧
    (bucketObjs.length < rules.serverBackups.toNat →
      ∃ msg, getServerBackupsToDownload bucketObjs rules = .error (.notFoundf msg)) := by
  have hspec := getServerBackupsToDownload_spec bucketObjs rules hk hdist
  have h0 : TopKInv rules.serverBackups.toNat [] [] :=
    ⟨by simp, by simp [distinctCreated], by simp, by simp, by simp⟩
  have hinv : TopKInv rules.serverBackups.toNat bucketObjs (topK rules.serverBackups.toNat bucketObjs) := by
    have := topK_inv_fold rules.serverBackups.toNat bucketObjs [] [] h0 (by simpa using hdist)
    simpa [topK] using this
  refine ⟨?_, ?_, ?_⟩
  · intro hlen
    refine ⟨(topK rules.serverBackups.toNat bucketObjs).map ObjAttrs.name, ?_, ?_⟩
    · rw [hspec, if_neg (by omega)]
    · have hperm := topK_perm rules.serverBackups.toNat bucketObjs [] (by simp [hlen])
      have : (topK rules.serverBackups.toNat bucketObjs).Perm bucketObjs := by
        simpa [topK] using hperm
      exact this.map ObjAttrs.name
  · intro hlen
    refine ⟨(topK rules.serverBackups.toNat bucketObjs).map ObjAttrs.name, ?_, ?_, ?_⟩
    · rw [hspec, if_neg (by omega)]
    · rw [List.length_map]
      have := hinv.len
      omega
    · intro key hkey
      obtain ⟨x, hxt, rfl⟩ := List.mem_map.mp hkey
      exact ⟨x, hinv.mem x hxt, rfl, countP_newer_le hdist hinv hxt⟩
  · intro hlen
    rw [hspec, if_pos (by omega)]
    exact ⟨_, rfl⟩

/-- Witness for C2 at a concrete bucket: three objects, K = 2. -/
theorem c2_serverBackups_bounded_topK_witness :
    ∃ keys, getServerBackupsToDownload
        [⟨"a", 10⟩, ⟨"b", 20⟩, ⟨"c", 5⟩] ⟨2, 0, 0, 0⟩ = .ok keys ∧
      keys.length = (2 : Int).toNat ∧
      ∀ key ∈ keys, ∃ x ∈ [ObjAttrs.mk "a" 10, ⟨"b", 20⟩, ⟨"c", 5⟩], x.name = key ∧
        [ObjAttrs.mk "a" 10, ⟨"b", 20⟩, ⟨"c", 5⟩].countP
          (fun y => decide (x.created < y.created)) ≤ (2 : Int).toNat - 1 :=
  (c2_serverBackups_bounded_topK [⟨"a", 10⟩, ⟨"b", 20⟩, ⟨"c", 5⟩] ⟨2, 0, 0, 0⟩
    (by decide) (by unfold distinctCreated; decide)).2.1 (by decide)

/- Age in days of a single object created exactly d days before now. -/
lemma age_days_exact (now d : Int) : Int.tdiv (now - (now - d * nsPerDay)) nsPerDay = d := by
  have h : now - (now - d * nsPerDay) = d * nsPerDay := by ring
  rw [h]
  exact Int.mul_tdiv_cancel d (by norm_num [nsPerDay])

lemma validateServerBackups_singleton (now : Int) (nm : String) (c : Int)
    (rules : ServerFileValidationRules) :
    validateServerBackups now [⟨nm, c⟩] rules =
      (if rules.oldestFileMaxAgeInDays ≤ Int.tdiv (now - c) nsPerDay then
        some (.notValidf ("Oldest file " ++ nm ++ " was created too long in the past. Check backup file archiving."))
      else if rules.newestFileMaxAgeInDays ≤ Int.tdiv (now - c) nsPerDay then
        some (.notValidf ("Newest file " ++ nm ++ " was created too long in the past. Make sure backups are running"))
      else none) := by
  rfl

/-- C4: the freshness boundary excludes the safe side.  A single-object
server-backup bucket whose object is exactly thresholdDays old already fails
with NotValid (for either the oldest or the newest threshold), an object aged
threshold - 1 days passes, and buckets classified media or photo pass
validateBucket trivially. -/
theorem c4_freshness_boundary (now : Int) (nm bucketName : String)
    (rules : ServerFileValidationRules) (config : Config) (d : Int) (bucketObjs : List ObjAttrs) :
    (d = rules.oldestFileMaxAgeInDays →
      ∃ msg, validateServerBackups now [⟨nm, now - d * nsPerDay⟩] rules = some (.notValidf msg)) ∧
    (d < rules.oldestFileMaxAgeInDays → d = rules.newestFileMaxAgeInDays →
      ∃ msg, validateServerBackups now [⟨nm, now - d * nsPerDay⟩] rules = some (.notValidf msg)) ∧
    (d = rules.oldestFileMaxAgeInDays - 1 → d ≤ rules.newestFileMaxAgeInDays - 1 →
      validateServerBackups now [⟨nm, now - d * nsPerDay⟩] rules = none) ∧
    (getBucketValidationTypeFromNameAndConfig bucketName config.buckets = .ok "media" →
      validateBucket now bucketName bucketObjs config = none) ∧
    (getBucketValidationTypeFromNameAndConfig bucketName config.buckets = .ok "photo" →
      validateBucket now bucketName bucketObjs config = none) := by
  have hage := age_days_exact now d
  refine ⟨?_, ?_, ?_, ?_, ?_⟩
  · intro hd
    rw [validateServerBackups_singleton, hage, if_pos (le_of_eq hd.symm)]
    exact ⟨_, rfl⟩
  · intro hd1 hd2
    rw [validateServerBackups_singleton, hage, if_neg (not_le.mpr hd1),
      if_pos (le_of_eq hd2.symm)]
    exact ⟨_, rfl⟩
  · intro hd1 hd2
    rw [validateServerBackups_singleton, hage, if_neg (by omega), if_neg (by omega)]
  · intro hclass
    unfold validateBucket
    rw [hclass]
    rfl
  · intro hclass
    unfold validateBucket
    rw [hclass]
    rfl

/-- Witness for C4 at concrete inputs: thresholds 10 and 20 days (and 5 for
the newest-boundary part), ages 10, 5 and 9 days, and one media and one
photo bucket. -/
theorem c4_freshness_boundary_witness :
    (∃ msg, validateServerBackups 0 [⟨"f", 0 - 10 * nsPerDay⟩] ⟨10, 20⟩ = some (.notValidf msg)) ∧
    (∃ msg, validateServerBackups 0 [⟨"f", 0 - 5 * nsPerDay⟩] ⟨10, 5⟩ = some (.notValidf msg)) ∧
    (validateServerBackups 0 [⟨"f", 0 - 9 * nsPerDay⟩] ⟨10, 20⟩ = none) ∧
    (validateBucket 0 "b" [] ⟨"", ⟨10, 20⟩, ⟨0, 0, 0, 0⟩, [⟨"b", "media"⟩], 0⟩ = none) ∧
    (validateBucket 0 "p" [] ⟨"", ⟨10, 20⟩, ⟨0, 0, 0, 0⟩, [⟨"p", "photo"⟩], 0⟩ = none) :=
  ⟨(c4_freshness_boundary 0 "f" "b" ⟨10, 20⟩ ⟨"", ⟨10, 20⟩, ⟨0, 0, 0, 0⟩, [], 0⟩ 10 []).1 rfl,
   (c4_freshness_boundary 0 "f" "b" ⟨10, 5⟩ ⟨"", ⟨10, 20⟩, ⟨0, 0, 0, 0⟩, [], 0⟩ 5 []).2.1
     (by decide) rfl,
   (c4_freshness_boundary 0 "f" "b" ⟨10, 20⟩ ⟨"", ⟨10, 20⟩, ⟨0, 0, 0, 0⟩, [], 0⟩ 9 []).2.2.1
     (by decide) (by decide),
   (c4_freshness_boundary 0 "f" "b" ⟨10, 20⟩ ⟨"", ⟨10, 20⟩, ⟨0, 0, 0, 0⟩, [⟨"b", "media"⟩], 0⟩ 0 []).2.2.2.1
     rfl,
   (c4_freshness_boundary 0 "f" "p" ⟨10, 20⟩ ⟨"", ⟨10, 20⟩, ⟨0, 0, 0, 0⟩, [⟨"p", "photo"⟩], 0⟩ 0 []).2.2.2.2
     rfl⟩

/- getRandomSampleFromPopulation: rand.Int() is modelled as a stream rng of
   nonnegative draws; draw number t is rng t, and the Go modulo
   rand.Int() % population is rng t % population.  The rejection loop is
   given explicit fuel; running out of fuel yields none (the Go loop would
   still be running).  The accumulated selections and the next draw index
   are threaded. -/
def sampleAux (rng : Nat → Nat) (population sampleSize : Nat) :
    Nat → Nat → List Nat → Option (List Nat × Nat)
  | 0, _, _ => none
  | fuel + 1, t, acc =>
      if sampleSize ≤ acc.length then some (acc, t)
      else
        if rng t % population ∈ acc then
          sampleAux rng population sampleSize fuel (t + 1) acc
        else
          sampleAux rng population sampleSize fuel (t + 1) (acc ++ [rng t % population])

/- Arguments sampleSize and population are Go ints; sampleSize > population
   or sampleSize <= 0 returns nil immediately (modelled as the empty list,
   with no draws consumed). -/
def getRandomSampleFromPopulation (rng : Nat → Nat) (fuel : Nat)
    (sampleSize population : Int) (t : Nat) : Option (List Nat × Nat) :=
  if population < sampleSize ∨ sampleSize ≤ 0 then some ([], t)
  else sampleAux rng population.toNat sampleSize.toNat fuel t []

lemma sampleAux_spec (rng : Nat → Nat) (population k : Nat) (hpop : 0 < population) :
    ∀ (fuel t : Nat) (acc : List Nat), acc.Nodup → (∀ a ∈ acc, a < population) →
      acc.length ≤ k →
      ∀ s t', sampleAux rng population k fuel t acc = some (s, t') →
        s.Nodup ∧ (∀ a ∈ s, a < population) ∧ s.length = k
  | 0, _, _, _, _, _, _, _, h => by simp [sampleAux] at h
  | fuel + 1, t, acc, hnodup, hbound, hlen, s, t', h => by
      rw [sampleAux] at h
      by_cases hfull : k ≤ acc.length
      · rw [if_pos hfull] at h
        obtain ⟨rfl, rfl⟩ : acc = s ∧ t = t' := by
          constructor <;> [exact congrArg Prod.fst (Option.some.inj h);
            exact congrArg Prod.snd (Option.some.inj h)]
        exact ⟨hnodup, hbound, le_antisymm hlen hfull⟩
      · rw [if_neg hfull] at h
        by_cases hdupe : rng t % population ∈ acc
        · rw [if_pos hdupe] at h
          exact sampleAux_spec rng population k hpop fuel (t + 1) acc hnodup hbound hlen s t' h
        · rw [if_neg hdupe] at h
          refine sampleAux_spec rng population k hpop fuel (t + 1)
            (acc ++ [rng t % population]) ?_ ?_ ?_ s t' h
          · simp [List.nodup_append, hnodup, hdupe]
          · intro a ha
            rcases List.mem_append.mp ha with hin | hone
            · exact hbound a hin
            · have : a = rng t % population := by simpa using hone
              rw [this]
              exact Nat.mod_lt _ hpop
          · simp only [List.length_append, List.length_singleton]
            omega

/- bannedNameRegex is ".*[aA][aA][eE]" used through the unanchored
   MatchString, so a name matches exactly when it contains the letters
   a, a, e consecutively in any case at any position (the leading ".*"
   puts no constraint, and nothing anchors the match to the end of the
   name). -/
def bannedTripleAt : List Char → Bool
  | c1 :: c2 :: c3 :: _ =>
      (c1 = 'a' || c1 = 'A') && (c2 = 'a' || c2 = 'A') && (c3 = 'e' || c3 = 'E')
  | _ => false

def bannedNameChars : List Char → Bool
  | [] => false
  | c :: cs => bannedTripleAt (c :: cs) || bannedNameChars cs

def bannedNameMatch (nm : String) : Bool := bannedNameChars nm.data

/- strings.HasPrefix / the object-store Prefix filter, on the character
   lists underlying the strings. -/
def listStartsWith : List Char → List Char → Bool
  | [], _ => true
  | _ :: _, [] => false
  | c :: cs, d :: ds => c = d && listStartsWith cs ds

def strStartsWith (pre s : String) : Bool := listStartsWith pre.data s.data

/- Spec-side reading of the claim: a name ends in a case-insensitive
   "aae" suffix. -/
def endsWithBannedSuffix (nm : String) : Bool :=
  match nm.data.reverse with
  | e :: a2 :: a1 :: _ =>
      (a1 = 'a' || a1 = 'A') && (a2 = 'a' || a2 = 'A') && (e = 'e' || e = 'E')
  | _ => false

/- getRandomFilesFromBucket.  The bucket listing with a Query carrying a
   Prefix (or no Prefix at all, when the prefix string is empty) is the
   sublist of descriptors whose names start with the given string; the Go
   loop then drops banned names and collects the rest.  The randomness
   stream, fuel and draw cursor are threaded as in
   getRandomSampleFromPopulation. -/
def getRandomFilesFromBucket (rng : Nat → Nat) (fuel : Nat) (bucketObjs : List ObjAttrs)
    (num : Int) (pre : String) (t : Nat) : Option (Except GoErr (List String) × Nat) :=
  if num < 0 then some (.error (.notValidf "Cannot return negative number of random files."), t)
  else if num = 0 then some (.ok [], t)
  else
    if (((bucketObjs.filter (fun o => strStartsWith pre o.name)).filter
        (fun o => !bannedNameMatch o.name)).length : Int) < num then
      some (.error (.notFoundf ("Not enough files in bucket to return requested sample size "
        ++ toString num ++ ".")), t)
    else if num = (((bucketObjs.filter (fun o => strStartsWith pre o.name)).filter
        (fun o => !bannedNameMatch o.name)).length : Int) then
      some (.ok (((bucketObjs.filter (fun o => strStartsWith pre o.name)).filter
        (fun o => !bannedNameMatch o.name)).map ObjAttrs.name), t)
    else
      match getRandomSampleFromPopulation rng fuel num
          (((bucketObjs.filter (fun o => strStartsWith pre o.name)).filter
            (fun o => !bannedNameMatch o.name)).length : Int) t with
      | none => none
      | some (selections, t') =>
          some (.ok (selections.map (fun i =>
            (((bucketObjs.filter (fun o => strStartsWith pre o.name)).filter
              (fun o => !bannedNameMatch o.name)).getD i ⟨"", 0⟩).name)), t')

/-- C3: random sampling without replacement.  Whenever the rejection loop
returns (for any randomness stream and fuel), a request of 0 < k <= p yields
exactly k pairwise-distinct indices in [0, p); a request of k <= 0 yields the
empty result immediately; and at the strategy layer, requesting more files
than the candidate population makes getRandomFilesFromBucket return a
NotFound error rather than crash. -/
theorem c3_random_sample_without_replacement (rng : Nat → Nat) (fuel t : Nat)
    (sampleSize population : Int) :
    (0 < sampleSize → sampleSize ≤ population →
      ∀ s t', getRandomSampleFromPopulation rng fuel sampleSize population t = some (s, t') →
        s.length = sampleSize.toNat ∧ s.Nodup ∧ ∀ a ∈ s, a < population.toNat) ∧
    (sampleSize ≤ 0 →
      getRandomSampleFromPopulation rng fuel sampleSize population t = some ([], t)) ∧
    (∀ (bucketObjs : List ObjAttrs) (pre : String) (num : Int),
      0 < num →
      (((bucketObjs.filter (fun o => strStartsWith pre o.name)).filter
          (fun o => !bannedNameMatch o.name)).length : Int) < num →
      ∃ msg, getRandomFilesFromBucket rng fuel bucketObjs num pre t
        = some (.error (.notFoundf msg), t)) := by
  refine ⟨?_, ?_, ?_⟩
  · intro hpos hle s t' h
    rw [getRandomSampleFromPopulation, if_neg (by omega)] at h
    have hpop : 0 < population.toNat := by omega
    obtain ⟨hnodup, hbound, hlen⟩ :=
      sampleAux_spec rng population.toNat sampleSize.toNat hpop fuel t []
        (by simp) (by simp) (by simp) s t' h
    exact ⟨hlen, hnodup, hbound⟩
  · intro hnp
    rw [getRandomSampleFromPopulation, if_pos (Or.inr hnp)]
  · intro bucketObjs pre num hpos hlt
    rw [getRandomFilesFromBucket, if_neg (by omega), if_neg (by omega), if_pos hlt]
    exact ⟨_, rfl⟩

/-- Witness for C3: the identity stream with fuel 10 draws the sample
[0, 1] from population 3, and a request of 2 files from a one-object
bucket fails with NotFound. -/
theorem c3_random_sample_without_replacement_witness :
    (([0, 1] : List Nat).length = (2 : Int).toNat ∧ ([0, 1] : List Nat).Nodup ∧
      ∀ a ∈ ([0, 1] : List Nat), a < (3 : Int).toNat) ∧
    (∃ msg, getRandomFilesFromBucket (fun n => n) 10 [⟨"only", 0⟩] 2 "" 0
      = some (.error (.notFoundf msg), 0)) :=
  ⟨(c3_random_sample_without_replacement (fun n => n) 10 0 2 3).1
      (by decide) (by decide) [0, 1] 2 (by decide),
   (c3_random_sample_without_replacement (fun n => n) 10 0 2 3).2.2
      [⟨"only", 0⟩] "" 2 (by decide) (by decide)⟩

/- Successful draws from getRandomFilesFromBucket only ever name objects
   that survived the banned-name filter. -/
lemma getRandomFilesFromBucket_ok_not_banned {rng : Nat → Nat} {fuel : Nat}
    {bucketObjs : List ObjAttrs} {num : Int} {pre : String} {t : Nat}
    {keys : List String} {t' : Nat}
    (h : getRandomFilesFromBucket rng fuel bucketObjs num pre t = some (.ok keys, t')) :
    ∀ key ∈ keys, bannedNameMatch key = false := by
  rw [getRandomFilesFromBucket] at h
  by_cases h1 : num < 0
  · rw [if_pos h1] at h
    simp at h
  rw [if_neg h1] at h
  by_cases h2 : num = 0
  · rw [if_pos h2] at h
    obtain ⟨hk, -⟩ := Prod.mk.injEq .. ▸ Option.some.inj h
    obtain rfl := (Except.ok.inj hk.symm)
    simp
  rw [if_neg h2] at h
  by_cases h3 : (((bucketObjs.filter (fun o => strStartsWith pre o.name)).filter
      (fun o => !bannedNameMatch o.name)).length : Int) < num
  · rw [if_pos h3] at h
    simp at h
  rw [if_neg h3] at h
  by_cases h4 : num = (((bucketObjs.filter (fun o => strStartsWith pre o.name)).filter
      (fun o => !bannedNameMatch o.name)).length : Int)
  · rw [if_pos h4] at h
    obtain ⟨hk, -⟩ := Prod.mk.injEq .. ▸ Option.some.inj h
    obtain rfl := (Except.ok.inj hk.symm)
    intro key hkey
    obtain ⟨o, ho, rfl⟩ := List.mem_map.mp hkey
    have := List.of_mem_filter ho
    simpa using this
  · rw [if_neg h4] at h
    set objects := (bucketObjs.filter (fun o => strStartsWith pre o.name)).filter
      (fun o => !bannedNameMatch o.name) with hobj
    match heq : getRandomSampleFromPopulation rng fuel num (objects.length : Int) t with
    | none => rw [heq] at h; simp at h
    | some (selections, t'') =>
        rw [heq] at h
        obtain ⟨hk, -⟩ := Prod.mk.injEq .. ▸ Option.some.inj h
        obtain rfl := (Except.ok.inj hk.symm)
        intro key hkey
        obtain ⟨i, hi, rfl⟩ := List.mem_map.mp hkey
        have hnum0 : 0 < num := by omega
        have hbounds : ∀ a ∈ selections, a < (objects.length : Int).toNat := by
          rw [getRandomSampleFromPopulation, if_neg (by omega)] at heq
          have hpop : 0 < (objects.length : Int).toNat := by omega
          exact (sampleAux_spec rng (objects.length : Int).toNat num.toNat hpop fuel t []
            (by simp) (by simp) (by simp) selections t'' heq).2.1
        have hilt : i < objects.length := by
          have := hbounds i hi
          omega
        rw [List.getD_eq_getElem objects ⟨"", 0⟩ hilt]
        have hmem : objects[i] ∈ objects := List.getElem_mem hilt
        have := List.of_mem_filter hmem
        simpa using this

/- A NotFound error out of getRandomFilesFromBucket for a positive request
   happens exactly when the request exceeds the banned-filtered candidate
   population. -/
lemma getRandomFilesFromBucket_notFound_iff (rng : Nat → Nat) (fuel : Nat)
    (bucketObjs : List ObjAttrs) (num : Int) (pre : String) (t : Nat) (hpos : 0 < num) :
    (∃ msg t', getRandomFilesFromBucket rng fuel bucketObjs num pre t
        = some (.error (.notFoundf msg), t'))
    ↔ (((bucketObjs.filter (fun o => strStartsWith pre o.name)).filter
        (fun o => !bannedNameMatch o.name)).length : Int) < num := by
  constructor
  · rintro ⟨msg, t', h⟩
    by_contra hge
    rw [getRandomFilesFromBucket, if_neg (by omega), if_neg (by omega), if_neg hge] at h
    by_cases h4 : num = (((bucketObjs.filter (fun o => strStartsWith pre o.name)).filter
        (fun o => !bannedNameMatch o.name)).length : Int)
    · rw [if_pos h4] at h
      simp at h
    · rw [if_neg h4] at h
      match heq : getRandomSampleFromPopulation rng fuel num
          ((((bucketObjs.filter (fun o => strStartsWith pre o.name)).filter
            (fun o => !bannedNameMatch o.name)).length : Int)) t with
      | none => rw [heq] at h; simp at h
      | some (selections, t'') => rw [heq] at h; simp at h
  · intro hlt
    rw [getRandomFilesFromBucket, if_neg (by omega), if_neg (by omega), if_pos hlt]
    exact ⟨_, t, rfl⟩

/-- C7 counterexample: the key "epaaex.mp4" does not end in a
case-insensitive "aae" suffix, yet getRandomFilesFromBucket removes it from
the candidate population (the regex .*[aA][aA][eE] is unanchored, so any key
containing "aae" matches), and a request for one file out of this one-object
bucket fails with NotFound instead of returning the key. -/
theorem c7_counterexample :
    getRandomFilesFromBucket (fun _ => 0) 1 [⟨"epaaex.mp4", 0⟩] 1 "" 0
      = some (.error (.notFoundf "Not enough files in bucket to return requested sample size 1."), 0)
    ∧ endsWithBannedSuffix "epaaex.mp4" = false := by
  constructor
  · rfl
  · rfl

/-- C7 amended: getRandomFilesFromBucket removes exactly the keys containing
a case-insensitive "aae" substring (not only suffixes) from the candidate
population before sampling: no returned key contains such a substring, and
for a positive request the NotFound population check counts exactly the
prefix-matching keys without such a substring. -/
theorem c7_banned_substring_exclusion (rng : Nat → Nat) (fuel : Nat)
    (bucketObjs : List ObjAttrs) (num : Int) (pre : String) (t : Nat) (hpos : 0 < num) :
    (∀ keys t', getRandomFilesFromBucket rng fuel bucketObjs num pre t = some (.ok keys, t') →
      ∀ key ∈ keys, bannedNameMatch key = false) ∧
    ((∃ msg t', getRandomFilesFromBucket rng fuel bucketObjs num pre t
        = some (.error (.notFoundf msg), t'))
      ↔ (((bucketObjs.filter (fun o => strStartsWith pre o.name)).filter
          (fun o => !bannedNameMatch o.name)).length : Int) < num) :=
  ⟨fun _ _ h => getRandomFilesFromBucket_ok_not_banned h,
   getRandomFilesFromBucket_notFound_iff rng fuel bucketObjs num pre t hpos⟩

/-- Witness for the amended C7: a clean one-object bucket returns its key,
which indeed has no "aae" substring, and the population check at this input
confirms the characterisation. -/
theorem c7_banned_substring_exclusion_witness :
    (∀ keys t', getRandomFilesFromBucket (fun n => n) 5 [⟨"show1/ep1.mp4", 0⟩] 1 "" 0
        = some (.ok keys, t') → ∀ key ∈ keys, bannedNameMatch key = false) ∧
    ((∃ msg t', getRandomFilesFromBucket (fun n => n) 5 [⟨"show1/ep1.mp4", 0⟩] 1 "" 0
        = some (.error (.notFoundf msg), t'))
      ↔ ((([ObjAttrs.mk "show1/ep1.mp4" 0].filter (fun o => strStartsWith "" o.name)).filter
          (fun o => !bannedNameMatch o.name)).length : Int) < 1) :=
  c7_banned_substring_exclusion (fun n => n) 5 [⟨"show1/ep1.mp4", 0⟩] 1 "" 0 (by decide)

/- fmt.Sprintf "%02d" for the month component. -/
def pad2 (n : Nat) : String := if n < 10 then "0" ++ toString n else toString n

/- Year loop of getPhotosToDownload: one draw per year with the "YYYY-"
   key filter, failures wrapped and propagated, selections concatenated in
   order. -/
def photosFromYears (rng : Nat → Nat) (fuel : Nat) (bucketObjs : List ObjAttrs) (perYear : Int) :
    List Nat → Nat → Option (Except GoErr (List String) × Nat)
  | [], t => some (.ok [], t)
  | year :: rest, t =>
      match getRandomFilesFromBucket rng fuel bucketObjs perYear (toString year ++ "-") t with
      | none => none
      | some (.error e, t') =>
          some (.error (.wrapped ("unable to get random files from year " ++ toString year
            ++ " in photo bucket") e), t')
      | some (.ok partialPhotos, t') =>
          match photosFromYears rng fuel bucketObjs perYear rest t' with
          | none => none
          | some (.error e, t'') => some (.error e, t'')
          | some (.ok restPhotos, t'') => some (.ok (partialPhotos ++ restPhotos), t'')

/- getPhotosToDownload: per-year draws for 2010 through the current year,
   then a draw for the current month with the "YYYY-MM" filter. -/
def getPhotosToDownload (rng : Nat → Nat) (fuel : Nat) (bucketObjs : List ObjAttrs)
    (rules : FileDownloadRules) (currYear currMonth : Nat) (t : Nat) :
    Option (Except GoErr (List String) × Nat) :=
  match photosFromYears rng fuel bucketObjs rules.photosFromEachYear
      (List.range' 2010 (currYear + 1 - 2010)) t with
  | none => none
  | some (.error e, t') => some (.error e, t')
  | some (.ok photos, t') =>
      match getRandomFilesFromBucket rng fuel bucketObjs rules.photosFromThisMonth
          (toString currYear ++ "-" ++ pad2 currMonth) t' with
      | none => none
      | some (.error e, t'') =>
          some (.error (.wrapped ("unable to get random files from this month "
            ++ toString currYear ++ "-" ++ pad2 currMonth ++ " in photo bucket") e), t'')
      | some (.ok partialPhotos, t'') => some (.ok (photos ++ partialPhotos), t'')

/- Removing banned-name objects from the bucket does not change the
   candidate list any draw works on. -/
lemma filter_banned_invariant (bucketObjs : List ObjAttrs) (pre : String) :
    ((bucketObjs.filter (fun o => !bannedNameMatch o.name)).filter
        (fun o => strStartsWith pre o.name)).filter (fun o => !bannedNameMatch o.name)
      = (bucketObjs.filter (fun o => strStartsWith pre o.name)).filter
          (fun o => !bannedNameMatch o.name) := by
  simp only [List.filter_filter]
  apply List.filter_congr
  intro a _
  cases hb : bannedNameMatch a.name <;> cases hp : strStartsWith pre a.name <;> rfl

lemma getRandomFilesFromBucket_banned_invariant (rng : Nat → Nat) (fuel : Nat)
    (bucketObjs : List ObjAttrs) (num : Int) (pre : String) (t : Nat) :
    getRandomFilesFromBucket rng fuel (bucketObjs.filter (fun o => !bannedNameMatch o.name))
        num pre t
      = getRandomFilesFromBucket rng fuel bucketObjs num pre t := by
  rw [getRandomFilesFromBucket, getRandomFilesFromBucket]
  simp only [filter_banned_invariant]

lemma photosFromYears_banned_invariant (rng : Nat → Nat) (fuel : Nat)
    (bucketObjs : List ObjAttrs) (perYear : Int) :
    ∀ (years : List Nat) (t : Nat),
      photosFromYears rng fuel (bucketObjs.filter (fun o => !bannedNameMatch o.name))
          perYear years t
        = photosFromYears rng fuel bucketObjs perYear years t
  | [], _ => rfl
  | year :: rest, t => by
      rw [photosFromYears, photosFromYears, getRandomFilesFromBucket_banned_invariant]
      match getRandomFilesFromBucket rng fuel bucketObjs perYear (toString year ++ "-") t with
      | none => rfl
      | some (.error e, t') => rfl
      | some (.ok partialPhotos, t') =>
          dsimp only
          rw [photosFromYears_banned_invariant rng fuel bucketObjs perYear rest t']

lemma photosFromYears_ok_not_banned (rng : Nat → Nat) (fuel : Nat)
    (bucketObjs : List ObjAttrs) (perYear : Int) :
    ∀ (years : List Nat) (t : Nat) (keys : List String) (t' : Nat),
      photosFromYears rng fuel bucketObjs perYear years t = some (.ok keys, t') →
      ∀ key ∈ keys, bannedNameMatch key = false
  | [], t, keys, t', h => by
      obtain ⟨hk, -⟩ := Prod.mk.injEq .. ▸ Option.some.inj h
      obtain rfl := (Except.ok.inj hk.symm)
      simp
  | year :: rest, t, keys, t', h => by
      rw [photosFromYears] at h
      match heq : getRandomFilesFromBucket rng fuel bucketObjs perYear (toString year ++ "-") t with
      | none => rw [heq] at h; simp at h
      | some (.error e, t1) => rw [heq] at h; simp at h
      | some (.ok partialPhotos, t1) =>
          rw [heq] at h
          dsimp only at h
          match heq2 : photosFromYears rng fuel bucketObjs perYear rest t1 with
          | none => rw [heq2] at h; simp at h
          | some (.error e, t2) => rw [heq2] at h; simp at h
          | some (.ok restPhotos, t2) =>
              rw [heq2] at h
              obtain ⟨hk, -⟩ := Prod.mk.injEq .. ▸ Option.some.inj h
              obtain rfl := (Except.ok.inj hk.symm)
              intro key hkey
              rcases List.mem_append.mp hkey with hin | hin
              · exact getRandomFilesFromBucket_ok_not_banned heq key hin
              · exact photosFromYears_ok_not_banned rng fuel bucketObjs perYear rest t1
                  restPhotos t2 heq2 key hin

/-- C10 (implicit): the banned-name filter lives inside
getRandomFilesFromBucket, so the photo strategy inherits it: no key returned
by getPhotosToDownload contains a case-insensitive "aae" substring, and
banned objects are entirely invisible to the photo strategy, including every
per-year and current-month population-sufficiency check (deleting them from
the bucket changes nothing). -/

theorem c10_photo_strategy_inherits_banned_filter (rng : Nat → Nat) (fuel : Nat)
    (bucketObjs : List ObjAttrs) (rules : FileDownloadRules) (currYear currMonth t : Nat) :
    (∀ keys t', getPhotosToDownload rng fuel bucketObjs rules currYear currMonth t
        = some (.ok keys, t') → ∀ key ∈ keys, bannedNameMatch key = false) ∧
    getPhotosToDownload rng fuel (bucketObjs.filter (fun o => !bannedNameMatch o.name))
        rules currYear currMonth t
      = getPhotosToDownload rng fuel bucketObjs rules currYear currMonth t := by
  constructor
  · intro keys t' h
    unfold getPhotosToDownload at h
    match heq : photosFromYears rng fuel bucketObjs rules.photosFromEachYear
        (List.range' 2010 (currYear + 1 - 2010)) t with
    | none => rw [heq] at h; simp at h
    | some (.error e, t1) => rw [heq] at h; simp at h
    | some (.ok photos, t1) =>
        rw [heq] at h
        dsimp only at h
        match heq2 : getRandomFilesFromBucket rng fuel bucketObjs rules.photosFromThisMonth
            (toString currYear ++ "-" ++ pad2 currMonth) t1 with
        | none => rw [heq2] at h; simp at h
        | some (.error e, t2) => rw [heq2] at h; simp at h
        | some (.ok monthPhotos, t2) =>
            rw [heq2] at h
            obtain ⟨hk, -⟩ := Prod.mk.injEq .. ▸ Option.some.inj h
            obtain rfl := (Except.ok.inj hk.symm)
            intro key hkey
            rcases List.mem_append.mp hkey with hin | hin
            · exact photosFromYears_ok_not_banned rng fuel bucketObjs rules.photosFromEachYear
                (List.range' 2010 (currYear + 1 - 2010)) t photos t1 heq key hin
            · exact getRandomFilesFromBucket_ok_not_banned heq2 key hin
  · unfold getPhotosToDownload
    rw [photosFromYears_banned_invariant]
    match photosFromYears rng fuel bucketObjs rules.photosFromEachYear
        (List.range' 2010 (currYear + 1 - 2010)) t with
    | none => rfl
    | some (.error e, t1) => rfl
    | some (.ok photos, t1) =>
        dsimp only
        rw [getRandomFilesFromBucket_banned_invariant]

/-- Witness for C10: a photo bucket with one May 2010 object; the draw
succeeds, the returned keys are free of the banned substring, and removing
banned objects is a no-op on this bucket. -/
theorem c10_photo_strategy_inherits_banned_filter_witness :
    (∀ keys t', getPhotosToDownload (fun n => n) 5 [⟨"2010-05/img1.jpg", 0⟩]
        ⟨0, 0, 1, 1⟩ 2010 5 0 = some (.ok keys, t') →
      ∀ key ∈ keys, bannedNameMatch key = false) ∧
    getPhotosToDownload (fun n => n) 5
        ([⟨"2010-05/img1.jpg", 0⟩].filter (fun o => !bannedNameMatch o.name))
        ⟨0, 0, 1, 1⟩ 2010 5 0
      = getPhotosToDownload (fun n => n) 5 [⟨"2010-05/img1.jpg", 0⟩] ⟨0, 0, 1, 1⟩ 2010 5 0 :=
  c10_photo_strategy_inherits_banned_filter (fun n => n) 5 [⟨"2010-05/img1.jpg", 0⟩]
    ⟨0, 0, 1, 1⟩ 2010 5 0

def isDigitChar (c : Char) : Bool := '0' ≤ c && c ≤ '9'

/- photoFileNameRegex "([0-9][0-9][0-9][0-9])-[0-9][0-9]/(.*)" tried at the
   head of the character list.  On success the two capture groups are
   returned; the second group is the greedy "." repetition, which in Go
   regexp does not cross a newline. -/
def photoPatAt : List Char → Option (List Char × List Char)
  | d1 :: d2 :: d3 :: d4 :: '-' :: m1 :: m2 :: '/' :: rest =>
      if isDigitChar d1 && isDigitChar d2 && isDigitChar d3 && isDigitChar d4
          && isDigitChar m1 && isDigitChar m2 then
        some ([d1, d2, d3, d4], rest.takeWhile (fun c => c ≠ '\n'))
      else none
  | _ => none

/- Go regexp matching is unanchored and yields the leftmost match;
   MatchString and FindStringSubmatch therefore scan positions left to
   right. -/
def findPhotoMatch : List Char → Option (List Char × List Char)
  | [] => none
  | c :: cs =>
      match photoPatAt (c :: cs) with
      | some r => some r
      | none => findPhotoMatch cs

/- filepath.Join modelled as interposing the path separator (the keys and
   roots this program joins contain no dot segments or trailing separators
   for Join to clean). -/
def joinPath (parts : List String) : String := String.intercalate "/" parts

/- Local destination computation at the top of the per-file loop of
   downloadFilesFromBucket. -/
def downloadLocalPath (downloadRoot bucketName remoteFile : String) : String :=
  match findPhotoMatch remoteFile.data with
  | some (yyyy, fname) => joinPath [downloadRoot, bucketName, String.mk yyyy, String.mk fname]
  | none => joinPath [downloadRoot, bucketName, remoteFile]

/- Spec-side reading of "the key matches the photo-style YYYY-MM/filename
   pattern": some position of the key starts four digits, a dash, two
   digits and a slash. -/
def hasPhotoPattern (cs : List Char) : Prop :=
  ∃ pre y m rest, cs = pre ++ y ++ '-' :: (m ++ '/' :: rest) ∧
    y.length = 4 ∧ m.length = 2 ∧ (∀ c ∈ y, isDigitChar c) ∧ (∀ c ∈ m, isDigitChar c)

lemma list_length_four {α : Type} : ∀ (l : List α), l.length = 4 → ∃ a b c d, l = [a, b, c, d]
  | [a, b, c, d], _ => ⟨a, b, c, d, rfl⟩

lemma list_length_two {α : Type} : ∀ (l : List α), l.length = 2 → ∃ a b, l = [a, b]
  | [a, b], _ => ⟨a, b, rfl⟩

lemma photoPatAt_some_shape (cs y f : List Char) (h : photoPatAt cs = some (y, f)) :
    ∃ m rest, cs = y ++ '-' :: (m ++ '/' :: rest) ∧ y.length = 4 ∧ m.length = 2 ∧
      (∀ c ∈ y, isDigitChar c) ∧ (∀ c ∈ m, isDigitChar c) ∧
      f = rest.takeWhile (fun c => c ≠ '\n') := by
  unfold photoPatAt at h
  split at h
  · rename_i d1 d2 d3 d4 m1 m2 rest
    split at h
    · rename_i hdig
      simp only [Option.some.injEq, Prod.mk.injEq] at h
      obtain ⟨rfl, rfl⟩ := h
      simp only [Bool.and_eq_true] at hdig
      refine ⟨[m1, m2], rest, by simp, by simp, by simp, ?_, ?_, rfl⟩
      · intro c hc
        simp at hc
        rcases hc with rfl | rfl | rfl | rfl
        · exact hdig.1.1.1.1.1
        · exact hdig.1.1.1.1.2
        · exact hdig.1.1.1.2
        · exact hdig.1.1.2
      · intro c hc
        simp at hc
        rcases hc with rfl | rfl
        · exact hdig.1.2
        · exact hdig.2
    · exact absurd h (by simp)
  · exact absurd h (by simp)

lemma photoPatAt_of_shape (y m rest : List Char) (hy : y.length = 4) (hm : m.length = 2)
    (hyd : ∀ c ∈ y, isDigitChar c) (hmd : ∀ c ∈ m, isDigitChar c) :
    photoPatAt (y ++ '-' :: (m ++ '/' :: rest))
      = some (y, rest.takeWhile (fun c => c ≠ '\n')) := by
  obtain ⟨a, b, c, d, rfl⟩ := list_length_four y hy
  obtain ⟨e, g, rfl⟩ := list_length_two m hm
  have ha := hyd a (by simp)
  have hb := hyd b (by simp)
  have hc := hyd c (by simp)
  have hd := hyd d (by simp)
  have he := hmd e (by simp)
  have hg := hmd g (by simp)
  simp [photoPatAt, ha, hb, hc, hd, he, hg]

lemma hasPhotoPattern_cons_iff {c : Char} {cs : List Char}
    (hnone : photoPatAt (c :: cs) = none) :
    hasPhotoPattern (c :: cs) ↔ hasPhotoPattern cs := by
  constructor
  · rintro ⟨pre, y, m, rest, hdec, hy, hm, hyd, hmd⟩
    cases pre with
    | nil =>
        simp only [List.nil_append] at hdec
        rw [hdec, photoPatAt_of_shape y m rest hy hm hyd hmd] at hnone
        simp at hnone
    | cons p pre' =>
        have : cs = pre' ++ y ++ '-' :: (m ++ '/' :: rest) := by
          have := hdec
          simp only [List.cons_append] at this
          exact (List.cons.inj this).2
        exact ⟨pre', y, m, rest, this, hy, hm, hyd, hmd⟩
  · rintro ⟨pre, y, m, rest, hdec, hy, hm, hyd, hmd⟩
    exact ⟨c :: pre, y, m, rest, by simp [hdec], hy, hm, hyd, hmd⟩

lemma findPhotoMatch_none_iff : ∀ (cs : List Char),
    findPhotoMatch cs = none ↔ ¬ hasPhotoPattern cs
  | [] => by
      simp only [findPhotoMatch, true_iff]
      rintro ⟨pre, y, m, rest, hdec, hy, hm, -, -⟩
      have := congrArg List.length hdec
      simp [hy, hm] at this
      omega
  | c :: cs => by
      rw [findPhotoMatch]
      match hpat : photoPatAt (c :: cs) with
      | some r =>
          have hhas : hasPhotoPattern (c :: cs) := by
            obtain ⟨y, f⟩ := r
            obtain ⟨m, rest, hdec, hy, hm, hyd, hmd, -⟩ := photoPatAt_some_shape _ y f hpat
            exact ⟨[], y, m, rest, by simpa using hdec, hy, hm, hyd, hmd⟩
          constructor
          · intro hcontra
            simp at hcontra
          · intro hcontra
            exact absurd hhas hcontra
      | none =>
          rw [findPhotoMatch_none_iff cs]
          exact (not_congr (hasPhotoPattern_cons_iff hpat)).symm

lemma findPhotoMatch_some_shape : ∀ (cs y f : List Char),
    findPhotoMatch cs = some (y, f) →
      ∃ pre m rest, cs = pre ++ y ++ '-' :: (m ++ '/' :: rest) ∧
        y.length = 4 ∧ m.length = 2 ∧ (∀ c ∈ y, isDigitChar c) ∧ (∀ c ∈ m, isDigitChar c) ∧
        f = rest.takeWhile (fun c => c ≠ '\n')
  | [], y, f, h => by simp [findPhotoMatch] at h
  | c :: cs, y, f, h => by
      rw [findPhotoMatch] at h
      match hpat : photoPatAt (c :: cs) with
      | some r =>
          rw [hpat] at h
          obtain rfl : r = (y, f) := Option.some.inj h
          obtain ⟨m, rest, hdec, hy, hm, hyd, hmd, hf⟩ := photoPatAt_some_shape _ y f hpat
          exact ⟨[], m, rest, by simpa using hdec, hy, hm, hyd, hmd, hf⟩
      | none =>
          rw [hpat] at h
          obtain ⟨pre, m, rest, hdec, hy, hm, hyd, hmd, hf⟩ :=
            findPhotoMatch_some_shape cs y f h
          exact ⟨c :: pre, m, rest, by simp [hdec], hy, hm, hyd, hmd, hf⟩

/-- C9: local destination computation.  A key is rewritten to
{root}/{bucket}/YYYY/filename, with YYYY and filename the capture groups of
the leftmost photo-style match, exactly when it contains a
"YYYY-MM/" photo-style pattern; every other key is mirrored verbatim as
{root}/{bucket}/{key}.  A key that itself starts with the pattern and has a
newline-free remainder maps to its own year and filename. -/
theorem c9_local_destination (downloadRoot bucketName remoteFile : String) :
    (∀ yyyy fname, findPhotoMatch remoteFile.data = some (yyyy, fname) →
      downloadLocalPath downloadRoot bucketName remoteFile
          = joinPath [downloadRoot, bucketName, String.mk yyyy, String.mk fname] ∧
        ∃ pre m rest, remoteFile.data = pre ++ yyyy ++ '-' :: (m ++ '/' :: rest) ∧
          yyyy.length = 4 ∧ m.length = 2 ∧
          (∀ c ∈ yyyy, isDigitChar c) ∧ (∀ c ∈ m, isDigitChar c) ∧
          fname = rest.takeWhile (fun c => c ≠ '\n')) ∧
    (findPhotoMatch remoteFile.data = none →
      downloadLocalPath downloadRoot bucketName remoteFile
        = joinPath [downloadRoot, bucketName, remoteFile]) ∧
    (findPhotoMatch remoteFile.data = none ↔ ¬ hasPhotoPattern remoteFile.data) ∧
    (∀ y m f, y.length = 4 → m.length = 2 →
      (∀ c ∈ y, isDigitChar c) → (∀ c ∈ m, isDigitChar c) → (∀ c ∈ f, c ≠ '\n') →
      downloadLocalPath downloadRoot bucketName (String.mk (y ++ '-' :: (m ++ '/' :: f)))
        = joinPath [downloadRoot, bucketName, String.mk y, String.mk f]) := by
  refine ⟨?_, ?_, findPhotoMatch_none_iff remoteFile.data, ?_⟩
  · intro yyyy fname hmatch
    refine ⟨?_, findPhotoMatch_some_shape remoteFile.data yyyy fname hmatch⟩
    rw [downloadLocalPath, hmatch]
  · intro hnone
    rw [downloadLocalPath, hnone]
  · intro y m f hy hm hyd hmd hnl
    obtain ⟨a, b, c, d, rfl⟩ := list_length_four y hy
    have hpat := photoPatAt_of_shape [a, b, c, d] m f (by simp) hm hyd hmd
    have hfw : f.takeWhile (fun c : Char => decide (c ≠ '\n')) = f := by
      rw [List.takeWhile_eq_self_iff]
      intro x hx
      simpa using hnl x hx
    rw [downloadLocalPath]
    have hfind : findPhotoMatch (String.mk ([a, b, c, d] ++ '-' :: (m ++ '/' :: f))).data
        = some ([a, b, c, d], f.takeWhile (fun c => c ≠ '\n')) := by
      show findPhotoMatch ([a, b, c, d] ++ '-' :: (m ++ '/' :: f)) = _
      have hexp : ([a, b, c, d] ++ '-' :: (m ++ '/' :: f))
          = a :: b :: c :: d :: '-' :: (m ++ '/' :: f) := by simp
      rw [hexp]
      rw [hexp] at hpat
      rw [findPhotoMatch, hpat]
    rw [hfind]
    dsimp only
    rw [hfw]

/-- Witness for C9: the photo key "2020-07/pic.jpg" groups to 2020/pic.jpg,
and the plain key "backup.tar" is mirrored. -/
theorem c9_local_destination_witness :
    (downloadLocalPath "root" "bkt" "2020-07/pic.jpg"
        = joinPath ["root", "bkt", String.mk "2020".data, String.mk "pic.jpg".data]) ∧
    (downloadLocalPath "root" "bkt" "backup.tar" = joinPath ["root", "bkt", "backup.tar"]) :=
  ⟨((c9_local_destination "root" "bkt" "2020-07/pic.jpg").1 "2020".data "pic.jpg".data
      (by decide)).1,
   (c9_local_destination "root" "bkt" "backup.tar").2.1 (by decide)⟩

/- Download pipeline model.  The local file system is an association of
   paths to byte contents (os.Create truncates, so a fresh write shadows
   the old entry); os.Stat's size is the content length and
   getCrc32CFromFile is an abstract checksum function applied to the
   content, since the code only ever compares checksums for equality.
   A remote object carries the metadata the code reads (Size, CRC32C) and
   the bytes its reader yields. -/
def lookupAssoc {α : Type} : List (String × α) → String → Option α
  | [], _ => none
  | (p, v) :: rest, q => if p = q then some v else lookupAssoc rest q

abbrev FS : Type := List (String × List Nat)

def fsWrite (fs : FS) (p : String) (data : List Nat) : FS := (p, data) :: fs

structure RemoteObj where
  size : Int
  crc32c : Nat
  content : List Nat
  deriving Repr, DecidableEq

/- verifyDownloadedFile: NotValid on a nil descriptor, NotFound when no
   local file exists, NotValid on size mismatch, then NotValid on CRC32C
   mismatch, else nil. -/
def verifyDownloadedFile (crc : List Nat → Nat) (objAttrs : Option RemoteObj)
    (fs : FS) (filePath : String) : Option GoErr :=
  match objAttrs with
  | none => some (.notValidf ("Cannot validate file " ++ filePath ++ " against an invalid object attr record."))
  | some attrs =>
      match lookupAssoc fs filePath with
      | none => some (.notFoundf "Cannot validate file that doesn't exist.")
      | some data =>
          if attrs.size ≠ (data.length : Int) then
            some (.notValidf ("Size mismatch, expected " ++ toString attrs.size
              ++ " found " ++ toString (data.length : Int)))
          else if attrs.crc32c ≠ crc data then
            some (.notValidf ("Bad CRC, expected " ++ toString attrs.crc32c
              ++ " found " ++ toString (crc data)))
          else none

/- Result of one downloadFile call: the Go error (nil as none), the file
   system afterwards, whether the remote byte-stream reader was opened,
   and how many bytes were transferred. -/
structure DlResult where
  err : Option GoErr
  fs : FS
  readerOpened : Bool
  bytes : Nat
  deriving Repr, DecidableEq

/- downloadFile: metadata fetch failing is NotFound; an already-valid
   local file short-circuits with AlreadyExists before the reader is
   opened; otherwise the object's bytes are streamed to the local path
   (parent directories are implicit in the path-keyed file system) and the
   freshly written file is verified again. -/
def downloadFile (crc : List Nat → Nat) (remote : List (String × RemoteObj))
    (remoteFilePath localFilePath : String) (fs : FS) : DlResult :=
  match lookupAssoc remote remoteFilePath with
  | none => ⟨some (.notFoundf ("Unable to find file in bucket at " ++ remoteFilePath)), fs, false, 0⟩
  | some attrs =>
      match verifyDownloadedFile crc (some attrs) fs localFilePath with
      | none =>
          ⟨some (.alreadyExistsf ("File " ++ localFilePath ++ " has already been downloaded successfully.")),
            fs, false, 0⟩
      | some _ =>
          ⟨verifyDownloadedFile crc (some attrs) (fsWrite fs localFilePath attrs.content) localFilePath,
            fsWrite fs localFilePath attrs.content, true, attrs.content.length⟩

/- Outcome of the per-key retry loop: the propagated error (nil on
   success), the final file system, the number of downloadFile attempts
   made, and the total bytes transferred. -/
structure RetryOutcome where
  err : Option GoErr
  fs : FS
  attempts : Nat
  bytes : Nat
  deriving Repr, DecidableEq

/- Per-key retry loop of downloadFilesFromBucket, parametric in the
   attempt (downloadFile partially applied): nil and AlreadyExists break
   out as success, NotFound returns at once wrapped with the key, any
   other error increments retryCount and retries until it exceeds
   MaxDownloadRetries, when the last error is wrapped and returned. -/
def downloadRetryLoop (att : FS → DlResult) (remoteFile : String) (maxR : Int)
    (fs : FS) (retryCount : Int) : RetryOutcome :=
  let r := att fs
  match r.err with
  | none => ⟨none, r.fs, 1, r.bytes⟩
  | some err2 =>
      if err2.isAlreadyExists then ⟨none, r.fs, 1, r.bytes⟩
      else if err2.isNotFound then
        ⟨some (.wrapped ("could not find " ++ remoteFile ++ " to download it") err2), r.fs, 1, r.bytes⟩
      else if h3 : maxR < retryCount + 1 then
        ⟨some (.wrapped ("could not download " ++ remoteFile ++ " after retrying max number of times") err2),
          r.fs, 1, r.bytes⟩
      else
        let out := downloadRetryLoop att remoteFile maxR r.fs (retryCount + 1)
        ⟨out.err, out.fs, out.attempts + 1, r.bytes + out.bytes⟩
termination_by (maxR + 1 - retryCount).toNat
decreasing_by
  simp only [not_lt] at h3
  omega

/- Per-bucket download pipeline: local destination computation then the
   retry loop, key by key, aborting on the first escalated error. -/
def downloadFilesFromBucket (crc : List Nat → Nat) (remote : List (String × RemoteObj))
    (downloadRoot bucketName : String) (maxR : Int) :
    List String → FS → Option GoErr × FS × Nat
  | [], fs => (none, fs, 0)
  | remoteFile :: rest, fs =>
      let out := downloadRetryLoop
        (downloadFile crc remote remoteFile (downloadLocalPath downloadRoot bucketName remoteFile))
        remoteFile maxR fs 0
      match out.err with
      | some e => (some e, out.fs, out.bytes)
      | none =>
          let out2 := downloadFilesFromBucket crc remote downloadRoot bucketName maxR rest out.fs
          (out2.1, out2.2.1, out.bytes + out2.2.2)

lemma isAlreadyExists_false_of_isNotFound {e : GoErr} (h : e.isNotFound = true) :
    e.isAlreadyExists = false := by
  unfold GoErr.isNotFound at h
  unfold GoErr.isAlreadyExists
  match he : e.root with
  | .notFoundf m => rfl
  | .notValidf m => rw [he] at h
  | .alreadyExistsf m => rw [he] at h; simp at h
  | .otherErr m => rw [he] at h
  | .wrapped m inner => rw [he] at h

/- Unfolding equations for the four exits of the retry loop. -/
lemma downloadRetryLoop_success (att : FS → DlResult) (rf : String) (maxR : Int)
    (fs : FS) (retryCount : Int) (herr : (att fs).err = none) :
    downloadRetryLoop att rf maxR fs retryCount = ⟨none, (att fs).fs, 1, (att fs).bytes⟩ := by
  rw [downloadRetryLoop]
  simp only [herr]

lemma downloadRetryLoop_alreadyExists (att : FS → DlResult) (rf : String) (maxR : Int)
    (fs : FS) (retryCount : Int) (e : GoErr)
    (herr : (att fs).err = some e) (hae : e.isAlreadyExists = true) :
    downloadRetryLoop att rf maxR fs retryCount = ⟨none, (att fs).fs, 1, (att fs).bytes⟩ := by
  rw [downloadRetryLoop]
  simp only [herr, hae, if_true]

lemma downloadRetryLoop_notFound (att : FS → DlResult) (rf : String) (maxR : Int)
    (fs : FS) (retryCount : Int) (e : GoErr)
    (herr : (att fs).err = some e) (hnf : e.isNotFound = true) :
    downloadRetryLoop att rf maxR fs retryCount
      = ⟨some (.wrapped ("could not find " ++ rf ++ " to download it") e),
          (att fs).fs, 1, (att fs).bytes⟩ := by
  rw [downloadRetryLoop]
  simp only [herr, isAlreadyExists_false_of_isNotFound hnf, hnf, Bool.false_eq_true,
    if_false, if_true]

lemma downloadRetryLoop_budget (att : FS → DlResult) (rf : String) (maxR : Int)
    (fs : FS) (retryCount : Int) (e : GoErr)
    (herr : (att fs).err = some e) (hae : e.isAlreadyExists = false) (hnf : e.isNotFound = false)
    (hlt : maxR < retryCount + 1) :
    downloadRetryLoop att rf maxR fs retryCount
      = ⟨some (.wrapped ("could not download " ++ rf ++ " after retrying max number of times") e),
          (att fs).fs, 1, (att fs).bytes⟩ := by
  rw [downloadRetryLoop]
  simp only [herr, hae, hnf, Bool.false_eq_true, if_false]
  rw [dif_pos hlt]

lemma downloadRetryLoop_retry (att : FS → DlResult) (rf : String) (maxR : Int)
    (fs : FS) (retryCount : Int) (e : GoErr)
    (herr : (att fs).err = some e) (hae : e.isAlreadyExists = false) (hnf : e.isNotFound = false)
    (hle : retryCount + 1 ≤ maxR) :
    downloadRetryLoop att rf maxR fs retryCount
      = ⟨(downloadRetryLoop att rf maxR (att fs).fs (retryCount + 1)).err,
          (downloadRetryLoop att rf maxR (att fs).fs (retryCount + 1)).fs,
          (downloadRetryLoop att rf maxR (att fs).fs (retryCount + 1)).attempts + 1,
          (att fs).bytes + (downloadRetryLoop att rf maxR (att fs).fs (retryCount + 1)).bytes⟩ := by
  rw [downloadRetryLoop]
  simp only [herr, hae, hnf, Bool.false_eq_true, if_false]
  rw [dif_neg (by omega)]

/- When every attempt fails with a retryable error, the loop performs one
   attempt for each remaining unit of budget plus the final one, and wraps
   the last attempt's error. -/
lemma downloadRetryLoop_exhausts (att : FS → DlResult) (rf : String) (maxR : Int)
    (h : ∀ fs1, ∃ e, (att fs1).err = some e ∧ e.isAlreadyExists = false ∧ e.isNotFound = false) :
    ∀ (n : Nat) (retryCount : Int) (fs : FS), (maxR - retryCount).toNat = n →
      (downloadRetryLoop att rf maxR fs retryCount).attempts = n + 1 ∧
      ∃ e fs1, (att fs1).err = some e ∧
        (downloadRetryLoop att rf maxR fs retryCount).err
          = some (.wrapped ("could not download " ++ rf ++ " after retrying max number of times") e)
  | 0, retryCount, fs, hn => by
      obtain ⟨e, herr, hae, hnf⟩ := h fs
      rw [downloadRetryLoop_budget att rf maxR fs retryCount e herr hae hnf (by omega)]
      exact ⟨rfl, e, fs, herr, rfl⟩
  | n + 1, retryCount, fs, hn => by
      obtain ⟨e, herr, hae, hnf⟩ := h fs
      rw [downloadRetryLoop_retry att rf maxR fs retryCount e herr hae hnf (by omega)]
      obtain ⟨hatt, e', fs1, herr', hwrap⟩ :=
        downloadRetryLoop_exhausts att rf maxR h n (retryCount + 1) (att fs).fs (by omega)
      exact ⟨by simpa using hatt, e', fs1, herr', by simpa using hwrap⟩

/-- C8: per-key failure policy of the Download Pipeline.  A NotFound from
downloadFile aborts at once (one attempt, error wrapped with the key); any
other error re-runs the whole per-key attempt with the counter incremented;
once the counter would exceed maxDownloadRetries the loop has made exactly
maxDownloadRetries + 1 attempts and fails with the last error wrapped with
context naming the key. -/
theorem c8_retry_policy (att : FS → DlResult) (rf : String) (maxR : Int) (fs : FS) :
    (∀ e, (att fs).err = some e → e.isNotFound = true →
      downloadRetryLoop att rf maxR fs 0
        = ⟨some (.wrapped ("could not find " ++ rf ++ " to download it") e),
            (att fs).fs, 1, (att fs).bytes⟩) ∧
    (∀ e retryCount, (att fs).err = some e → e.isAlreadyExists = false → e.isNotFound = false →
      retryCount + 1 ≤ maxR →
      (downloadRetryLoop att rf maxR fs retryCount).attempts
          = (downloadRetryLoop att rf maxR (att fs).fs (retryCount + 1)).attempts + 1 ∧
      (downloadRetryLoop att rf maxR fs retryCount).err
          = (downloadRetryLoop att rf maxR (att fs).fs (retryCount + 1)).err) ∧
    ((∀ fs1, ∃ e, (att fs1).err = some e ∧ e.isAlreadyExists = false ∧ e.isNotFound = false) →
      (downloadRetryLoop att rf maxR fs 0).attempts = maxR.toNat + 1 ∧
      ∃ e fs1, (att fs1).err = some e ∧
        (downloadRetryLoop att rf maxR fs 0).err
          = some (.wrapped ("could not download " ++ rf ++ " after retrying max number of times") e)) := by
  refine ⟨?_, ?_, ?_⟩
  · intro e herr hnf
    exact downloadRetryLoop_notFound att rf maxR fs 0 e herr hnf
  · intro e retryCount herr hae hnf hle
    rw [downloadRetryLoop_retry att rf maxR fs retryCount e herr hae hnf hle]
    exact ⟨rfl, rfl⟩
  · intro hall
    exact downloadRetryLoop_exhausts att rf maxR hall maxR.toNat 0 fs (by omega)

/-- Witness for C8: a permanently missing object aborts after one attempt;
a persistent transport error with maxDownloadRetries = 2 is attempted three
times and wrapped; a retryable error with budget left re-runs the attempt. -/
theorem c8_retry_policy_witness :
    (downloadRetryLoop (fun fs => ⟨some (.notFoundf "gone"), fs, false, 0⟩) "k" 2 [] 0
      = ⟨some (.wrapped "could not find k to download it" (.notFoundf "gone")), [], 1, 0⟩) ∧
    ((downloadRetryLoop (fun fs => ⟨some (.otherErr "net"), fs, true, 3⟩) "k" 2 [] 0).attempts
        = (2 : Int).toNat + 1 ∧
      ∃ e fs1, ((fun fs => (⟨some (.otherErr "net"), fs, true, 3⟩ : DlResult)) fs1).err = some e ∧
        (downloadRetryLoop (fun fs => ⟨some (.otherErr "net"), fs, true, 3⟩) "k" 2 [] 0).err
          = some (.wrapped "could not download k after retrying max number of times" e)) ∧
    ((downloadRetryLoop (fun fs => ⟨some (.otherErr "net"), fs, true, 3⟩) "k" 2 [] 0).attempts
        = (downloadRetryLoop (fun fs => ⟨some (.otherErr "net"), fs, true, 3⟩) "k" 2 [] 1).attempts + 1) :=
  ⟨(c8_retry_policy (fun fs => ⟨some (.notFoundf "gone"), fs, false, 0⟩) "k" 2 []).1
      (.notFoundf "gone") rfl rfl,
   (c8_retry_policy (fun fs => ⟨some (.otherErr "net"), fs, true, 3⟩) "k" 2 []).2.2
      (fun fs1 => ⟨.otherErr "net", rfl, rfl, rfl⟩),
   ((c8_retry_policy (fun fs => ⟨some (.otherErr "net"), fs, true, 3⟩) "k" 2 []).2.1
      (.otherErr "net") 0 rfl rfl rfl (by decide)).1⟩

/-- C1 counterexample: a NotValid verification failure is NOT reported
as-is and DOES consume the retry budget.  A remote object whose metadata
size (5) disagrees with its 3 bytes of content makes every fresh download
fail verification with NotValid; with maxDownloadRetries = 2 the loop runs
the attempt three times and returns the NotValid error wrapped in
max-retries context, not as-is after a single attempt. -/
theorem c1_counterexample :
    (downloadRetryLoop
        (downloadFile (fun _ => 0) [("k", ⟨5, 0, [1, 2, 3]⟩)] "k" "r/b/k") "k" 2 [] 0).err
      = some (.wrapped "could not download k after retrying max number of times"
          (.notValidf "Size mismatch, expected 5 found 3")) ∧
    (downloadRetryLoop
        (downloadFile (fun _ => 0) [("k", ⟨5, 0, [1, 2, 3]⟩)] "k" "r/b/k") "k" 2 [] 0).attempts
      = 3 := by
  set att := downloadFile (fun _ => 0) [("k", ⟨5, 0, [1, 2, 3]⟩)] "k" "r/b/k" with hatt
  rw [downloadRetryLoop_retry att "k" 2 [] 0
    (.notValidf "Size mismatch, expected 5 found 3") rfl rfl rfl (by decide)]
  rw [downloadRetryLoop_retry att "k" 2 (att []).fs (0 + 1)
    (.notValidf "Size mismatch, expected 5 found 3") rfl rfl rfl (by decide)]
  rw [downloadRetryLoop_budget att "k" 2 (att (att []).fs).fs (0 + 1 + 1)
    (.notValidf "Size mismatch, expected 5 found 3") rfl rfl rfl (by decide)]
  exact ⟨rfl, rfl⟩

/-- C1 amended: NotValid errors from downloadFile (for example a size or
checksum mismatch reported by verifyDownloadedFile on the freshly written
file) are retried exactly like transient errors: each failed attempt
consumes retry budget and after maxDownloadRetries + 1 attempts the
pipeline fails with the last NotValid error wrapped in context naming the
key; only NotFound aborts without retry. -/
theorem c1_notValid_consumes_retry_budget (att : FS → DlResult) (rf : String) (maxR : Int)
    (fs : FS) (h : ∀ fs1, ∃ msg, (att fs1).err = some (.notValidf msg)) :
    (downloadRetryLoop att rf maxR fs 0).attempts = maxR.toNat + 1 ∧
    ∃ msg, (downloadRetryLoop att rf maxR fs 0).err
      = some (.wrapped ("could not download " ++ rf ++ " after retrying max number of times")
          (.notValidf msg)) := by
  have h' : ∀ fs1, ∃ e, (att fs1).err = some e ∧ e.isAlreadyExists = false ∧ e.isNotFound = false :=
    fun fs1 => by
      obtain ⟨msg, hm⟩ := h fs1
      exact ⟨.notValidf msg, hm, rfl, rfl⟩
  obtain ⟨hatts, e, fs1, herr, hwrap⟩ :=
    downloadRetryLoop_exhausts att rf maxR h' maxR.toNat 0 fs (by omega)
  obtain ⟨msg, hm⟩ := h fs1
  have he : e = .notValidf msg := by
    rw [hm] at herr
    exact (Option.some.inj herr).symm
  exact ⟨hatts, msg, he ▸ hwrap⟩

/-- Witness for the amended C1: a persistent NotValid with budget 2 makes
three attempts and ends wrapped in max-retries context. -/
theorem c1_notValid_consumes_retry_budget_witness :
    (downloadRetryLoop (fun fs => ⟨some (.notValidf "bad"), fs, true, 1⟩) "k" 2 [] 0).attempts
      = (2 : Int).toNat + 1 ∧
    ∃ msg, (downloadRetryLoop (fun fs => ⟨some (.notValidf "bad"), fs, true, 1⟩) "k" 2 [] 0).err
      = some (.wrapped "could not download k after retrying max number of times"
          (.notValidf msg)) :=
  c1_notValid_consumes_retry_budget (fun fs => ⟨some (.notValidf "bad"), fs, true, 1⟩) "k" 2 []
    (fun fs1 => ⟨"bad", rfl⟩)

lemma lookupAssoc_write_ne (fs : FS) (p q : String) (data : List Nat) (h : q ≠ p) :
    lookupAssoc (fsWrite fs p data) q = lookupAssoc fs q := by
  show (if p = q then some data else lookupAssoc fs q) = lookupAssoc fs q
  rw [if_neg (fun hc => h hc.symm)]

lemma verifyDownloadedFile_congr (crc : List Nat → Nat) (a : Option RemoteObj)
    (fs1 fs2 : FS) (p : String) (h : lookupAssoc fs1 p = lookupAssoc fs2 p) :
    verifyDownloadedFile crc a fs1 p = verifyDownloadedFile crc a fs2 p := by
  unfold verifyDownloadedFile
  cases a with
  | none => rfl
  | some attrs => rw [h]

lemma verifyDownloadedFile_not_alreadyExists (crc : List Nat → Nat) (a : Option RemoteObj)
    (fs : FS) (p : String) (e : GoErr) (h : verifyDownloadedFile crc a fs p = some e) :
    e.isAlreadyExists = false := by
  unfold verifyDownloadedFile at h
  cases a with
  | none =>
      obtain rfl := Option.some.inj h
      rfl
  | some attrs =>
      match hl : lookupAssoc fs p with
      | none =>
          rw [hl] at h
          obtain rfl := Option.some.inj h
          rfl
      | some data =>
          rw [hl] at h
          dsimp only at h
          by_cases h1 : attrs.size ≠ (data.length : Int)
          · rw [if_pos h1] at h
            obtain rfl := Option.some.inj h
            rfl
          · rw [if_neg h1] at h
            by_cases h2 : attrs.crc32c ≠ crc data
            · rw [if_pos h2] at h
              obtain rfl := Option.some.inj h
              rfl
            · rw [if_neg h2] at h
              simp at h

/- Exhaustive outcome analysis of one downloadFile call. -/
lemma downloadFile_outcomes (crc : List Nat → Nat) (remote : List (String × RemoteObj))
    (rf lf : String) (fs : FS) :
    (lookupAssoc remote rf = none ∧
      downloadFile crc remote rf lf fs
        = ⟨some (.notFoundf ("Unable to find file in bucket at " ++ rf)), fs, false, 0⟩) ∨
    (∃ attrs, lookupAssoc remote rf = some attrs ∧
      verifyDownloadedFile crc (some attrs) fs lf = none ∧
      downloadFile crc remote rf lf fs
        = ⟨some (.alreadyExistsf ("File " ++ lf ++ " has already been downloaded successfully.")),
            fs, false, 0⟩) ∨
    (∃ attrs e, lookupAssoc remote rf = some attrs ∧
      verifyDownloadedFile crc (some attrs) fs lf = some e ∧
      downloadFile crc remote rf lf fs
        = ⟨verifyDownloadedFile crc (some attrs) (fsWrite fs lf attrs.content) lf,
            fsWrite fs lf attrs.content, true, attrs.content.length⟩) := by
  match hl : lookupAssoc remote rf with
  | none =>
      refine Or.inl ⟨rfl, ?_⟩
      rw [downloadFile, hl]
  | some attrs =>
      match hv : verifyDownloadedFile crc (some attrs) fs lf with
      | none =>
          refine Or.inr (Or.inl ⟨attrs, rfl, hv, ?_⟩)
          rw [downloadFile, hl]
          dsimp only
          rw [hv]
      | some e =>
          refine Or.inr (Or.inr ⟨attrs, e, rfl, hv, ?_⟩)
          rw [downloadFile, hl]
          dsimp only
          rw [hv]

/- A successful per-key loop leaves a locally verified file (fresh
   download or pre-existing). -/
lemma downloadRetryLoop_success_verify (crc : List Nat → Nat) (remote : List (String × RemoteObj))
    (rf lf : String) (maxR : Int) :
    ∀ (n : Nat) (retryCount : Int) (fs : FS), (maxR - retryCount).toNat = n →
      (downloadRetryLoop (downloadFile crc remote rf lf) rf maxR fs retryCount).err = none →
      ∃ attrs, lookupAssoc remote rf = some attrs ∧
        verifyDownloadedFile crc (some attrs)
          (downloadRetryLoop (downloadFile crc remote rf lf) rf maxR fs retryCount).fs lf
          = none := by
  intro n
  induction n using Nat.strong_induction_on with
  | _ n IH =>
      intro retryCount fs hn hsucc
      rcases downloadFile_outcomes crc remote rf lf fs with
        ⟨hl, heq⟩ | ⟨attrs, hl, hv, heq⟩ | ⟨attrs, e, hl, hv, heq⟩
      · rw [downloadRetryLoop_notFound (downloadFile crc remote rf lf) rf maxR fs retryCount
          (.notFoundf ("Unable to find file in bucket at " ++ rf)) (by rw [heq]) rfl] at hsucc
        simp at hsucc
      · rw [downloadRetryLoop_alreadyExists (downloadFile crc remote rf lf) rf maxR fs retryCount
          (.alreadyExistsf ("File " ++ lf ++ " has already been downloaded successfully."))
          (by rw [heq]) rfl]
        rw [heq]
        exact ⟨attrs, hl, hv⟩
      · match hv2 : verifyDownloadedFile crc (some attrs) (fsWrite fs lf attrs.content) lf with
        | none =>
            rw [downloadRetryLoop_success (downloadFile crc remote rf lf) rf maxR fs retryCount
              (by rw [heq]; exact hv2)]
            rw [heq]
            exact ⟨attrs, hl, hv2⟩
        | some e2 =>
            have herr2 : (downloadFile crc remote rf lf fs).err = some e2 := by
              rw [heq]
              exact hv2
            have hae2 : e2.isAlreadyExists = false :=
              verifyDownloadedFile_not_alreadyExists crc (some attrs) _ lf e2 hv2
            by_cases hnf2 : e2.isNotFound = true
            · rw [downloadRetryLoop_notFound (downloadFile crc remote rf lf) rf maxR fs retryCount
                e2 herr2 hnf2] at hsucc
              simp at hsucc
            · have hnf2' : e2.isNotFound = false := by
                cases he2 : e2.isNotFound
                · rfl
                · exact absurd he2 hnf2
              by_cases hbudget : maxR < retryCount + 1
              · rw [downloadRetryLoop_budget (downloadFile crc remote rf lf) rf maxR fs retryCount
                  e2 herr2 hae2 hnf2' hbudget] at hsucc
                simp at hsucc
              · rw [downloadRetryLoop_retry (downloadFile crc remote rf lf) rf maxR fs retryCount
                  e2 herr2 hae2 hnf2' (by omega)] at hsucc ⊢
                have hn' : (maxR - (retryCount + 1)).toNat = n - 1 := by omega
                exact IH (n - 1) (by omega) (retryCount + 1)
                  (downloadFile crc remote rf lf fs).fs hn' hsucc

/- The per-key loop only ever writes at its own local destination. -/
lemma downloadRetryLoop_fs_lookup (crc : List Nat → Nat) (remote : List (String × RemoteObj))
    (rf lf : String) (maxR : Int) (p : String) (hne : p ≠ lf) :
    ∀ (n : Nat) (retryCount : Int) (fs : FS), (maxR - retryCount).toNat = n →
      lookupAssoc (downloadRetryLoop (downloadFile crc remote rf lf) rf maxR fs retryCount).fs p
        = lookupAssoc fs p := by
  intro n
  induction n using Nat.strong_induction_on with
  | _ n IH =>
      intro retryCount fs hn
      rcases downloadFile_outcomes crc remote rf lf fs with
        ⟨hl, heq⟩ | ⟨attrs, hl, hv, heq⟩ | ⟨attrs, e, hl, hv, heq⟩
      · rw [downloadRetryLoop_notFound (downloadFile crc remote rf lf) rf maxR fs retryCount
          (.notFoundf ("Unable to find file in bucket at " ++ rf)) (by rw [heq]) rfl, heq]
      · rw [downloadRetryLoop_alreadyExists (downloadFile crc remote rf lf) rf maxR fs retryCount
          (.alreadyExistsf ("File " ++ lf ++ " has already been downloaded successfully."))
          (by rw [heq]) rfl, heq]
      · have hwr : lookupAssoc (downloadFile crc remote rf lf fs).fs p = lookupAssoc fs p := by
          rw [heq]
          exact lookupAssoc_write_ne fs lf p attrs.content hne
        match hv2 : verifyDownloadedFile crc (some attrs) (fsWrite fs lf attrs.content) lf with
        | none =>
            rw [downloadRetryLoop_success (downloadFile crc remote rf lf) rf maxR fs retryCount
              (by rw [heq]; exact hv2)]
            exact hwr
        | some e2 =>
            have herr2 : (downloadFile crc remote rf lf fs).err = some e2 := by
              rw [heq]; exact hv2
            have hae2 : e2.isAlreadyExists = false :=
              verifyDownloadedFile_not_alreadyExists crc (some attrs) _ lf e2 hv2
            by_cases hnf2 : e2.isNotFound = true
            · rw [downloadRetryLoop_notFound (downloadFile crc remote rf lf) rf maxR fs retryCount
                e2 herr2 hnf2]
              exact hwr
            · have hnf2' : e2.isNotFound = false := by
                cases he2 : e2.isNotFound
                · rfl
                · exact absurd he2 hnf2
              by_cases hbudget : maxR < retryCount + 1
              · rw [downloadRetryLoop_budget (downloadFile crc remote rf lf) rf maxR fs retryCount
                  e2 herr2 hae2 hnf2' hbudget]
                exact hwr
              · rw [downloadRetryLoop_retry (downloadFile crc remote rf lf) rf maxR fs retryCount
                  e2 herr2 hae2 hnf2' (by omega)]
                have hstep := IH (n - 1) (by omega) (retryCount + 1)
                  (downloadFile crc remote rf lf fs).fs (by omega)
                exact hstep.trans hwr

/- Head-step unfolding equations for the per-bucket pipeline. -/
lemma downloadFilesFromBucket_cons_err (crc : List Nat → Nat) (remote : List (String × RemoteObj))
    (root bucket : String) (maxR : Int) (rf0 : String) (rest : List String) (fs : FS) (e : GoErr)
    (hout : (downloadRetryLoop (downloadFile crc remote rf0 (downloadLocalPath root bucket rf0))
        rf0 maxR fs 0).err = some e) :
    downloadFilesFromBucket crc remote root bucket maxR (rf0 :: rest) fs
      = (some e,
          (downloadRetryLoop (downloadFile crc remote rf0 (downloadLocalPath root bucket rf0))
            rf0 maxR fs 0).fs,
          (downloadRetryLoop (downloadFile crc remote rf0 (downloadLocalPath root bucket rf0))
            rf0 maxR fs 0).bytes) := by
  rw [downloadFilesFromBucket]
  dsimp only
  rw [hout]

lemma downloadFilesFromBucket_cons_ok (crc : List Nat → Nat) (remote : List (String × RemoteObj))
    (root bucket : String) (maxR : Int) (rf0 : String) (rest : List String) (fs : FS)
    (hout : (downloadRetryLoop (downloadFile crc remote rf0 (downloadLocalPath root bucket rf0))
        rf0 maxR fs 0).err = none) :
    downloadFilesFromBucket crc remote root bucket maxR (rf0 :: rest) fs
      = ((downloadFilesFromBucket crc remote root bucket maxR rest
            (downloadRetryLoop (downloadFile crc remote rf0 (downloadLocalPath root bucket rf0))
              rf0 maxR fs 0).fs).1,
          (downloadFilesFromBucket crc remote root bucket maxR rest
            (downloadRetryLoop (downloadFile crc remote rf0 (downloadLocalPath root bucket rf0))
              rf0 maxR fs 0).fs).2.1,
          (downloadRetryLoop (downloadFile crc remote rf0 (downloadLocalPath root bucket rf0))
            rf0 maxR fs 0).bytes
            + (downloadFilesFromBucket crc remote root bucket maxR rest
                (downloadRetryLoop (downloadFile crc remote rf0 (downloadLocalPath root bucket rf0))
                  rf0 maxR fs 0).fs).2.2) := by
  rw [downloadFilesFromBucket]
  dsimp only
  rw [hout]

/- The bucket pipeline only ever writes at the local destinations of its
   own keys. -/
lemma downloadFilesFromBucket_fs_lookup (crc : List Nat → Nat) (remote : List (String × RemoteObj))
    (root bucket : String) (maxR : Int) :
    ∀ (files : List String) (fs : FS) (p : String),
      p ∉ files.map (downloadLocalPath root bucket) →
      lookupAssoc (downloadFilesFromBucket crc remote root bucket maxR files fs).2.1 p
        = lookupAssoc fs p
  | [], _, _, _ => rfl
  | rf0 :: rest, fs, p, hnot => by
      have hne : p ≠ downloadLocalPath root bucket rf0 := by
        intro hc
        exact hnot (by simp [hc])
      have hloop := downloadRetryLoop_fs_lookup crc remote rf0
        (downloadLocalPath root bucket rf0) maxR p hne maxR.toNat 0 fs (by omega)
      match hout : (downloadRetryLoop (downloadFile crc remote rf0
          (downloadLocalPath root bucket rf0)) rf0 maxR fs 0).err with
      | some e =>
          rw [downloadFilesFromBucket_cons_err crc remote root bucket maxR rf0 rest fs e hout]
          exact hloop
      | none =>
          rw [downloadFilesFromBucket_cons_ok crc remote root bucket maxR rf0 rest fs hout]
          have hrest := downloadFilesFromBucket_fs_lookup crc remote root bucket maxR rest
            (downloadRetryLoop (downloadFile crc remote rf0
              (downloadLocalPath root bucket rf0)) rf0 maxR fs 0).fs p
            (fun hc => hnot (by simp at hc ⊢; exact Or.inr hc))
          exact hrest.trans hloop

/- After a successful run every key's local destination verifies against
   its remote metadata in the final file system. -/
lemma downloadFilesFromBucket_success_verified (crc : List Nat → Nat)
    (remote : List (String × RemoteObj)) (root bucket : String) (maxR : Int) :
    ∀ (files : List String) (fs : FS),
      (files.map (downloadLocalPath root bucket)).Nodup →
      (downloadFilesFromBucket crc remote root bucket maxR files fs).1 = none →
      ∀ rf ∈ files, ∃ attrs, lookupAssoc remote rf = some attrs ∧
        verifyDownloadedFile crc (some attrs)
          (downloadFilesFromBucket crc remote root bucket maxR files fs).2.1
          (downloadLocalPath root bucket rf) = none
  | [], _, _, _, rf, hmem => by simp at hmem
  | rf0 :: rest, fs, hnodup, hsucc, rf, hmem => by
      match hout : (downloadRetryLoop (downloadFile crc remote rf0
          (downloadLocalPath root bucket rf0)) rf0 maxR fs 0).err with
      | some e =>
          rw [downloadFilesFromBucket_cons_err crc remote root bucket maxR rf0 rest fs e hout] at hsucc
          simp at hsucc
      | none =>
          rw [downloadFilesFromBucket_cons_ok crc remote root bucket maxR rf0 rest fs hout] at hsucc ⊢
          rcases List.mem_cons.mp hmem with rfl | hmemrest
          · obtain ⟨attrs, hl, hv⟩ := downloadRetryLoop_success_verify crc remote rf
              (downloadLocalPath root bucket rf) maxR maxR.toNat 0 fs (by omega) hout
            refine ⟨attrs, hl, ?_⟩
            have hnotin : downloadLocalPath root bucket rf ∉
                rest.map (downloadLocalPath root bucket) := by
              rw [List.map_cons] at hnodup
              exact (List.nodup_cons.mp hnodup).1
            have hpres := downloadFilesFromBucket_fs_lookup crc remote root bucket maxR rest
              (downloadRetryLoop (downloadFile crc remote rf
                (downloadLocalPath root bucket rf)) rf maxR fs 0).fs
              (downloadLocalPath root bucket rf) hnotin
            rw [verifyDownloadedFile_congr crc (some attrs) _ _ _ hpres]
            exact hv
          · rw [List.map_cons] at hnodup
            have hrest := downloadFilesFromBucket_success_verified crc remote root bucket maxR rest
              (downloadRetryLoop (downloadFile crc remote rf0
                (downloadLocalPath root bucket rf0)) rf0 maxR fs 0).fs
              (List.nodup_cons.mp hnodup).2 hsucc rf hmemrest
            exact hrest

/- A bucket whose every key already verifies locally resolves entirely via
   AlreadyExists: nothing is written and zero bytes are transferred. -/
lemma downloadFilesFromBucket_all_verified (crc : List Nat → Nat)
    (remote : List (String × RemoteObj)) (root bucket : String) (maxR : Int) :
    ∀ (files : List String) (fs : FS),
      (∀ rf ∈ files, ∃ attrs, lookupAssoc remote rf = some attrs ∧
        verifyDownloadedFile crc (some attrs) fs (downloadLocalPath root bucket rf) = none) →
      downloadFilesFromBucket crc remote root bucket maxR files fs = (none, fs, 0)
  | [], _, _ => rfl
  | rf0 :: rest, fs, hall => by
      obtain ⟨attrs, hl, hv⟩ := hall rf0 (by simp)
      have hdl : downloadFile crc remote rf0 (downloadLocalPath root bucket rf0) fs
          = ⟨some (.alreadyExistsf ("File " ++ downloadLocalPath root bucket rf0
              ++ " has already been downloaded successfully.")), fs, false, 0⟩ := by
        rw [downloadFile, hl]
        dsimp only
        rw [hv]
      have hloop := downloadRetryLoop_alreadyExists
        (downloadFile crc remote rf0 (downloadLocalPath root bucket rf0)) rf0 maxR fs 0
        (.alreadyExistsf ("File " ++ downloadLocalPath root bucket rf0
          ++ " has already been downloaded successfully.")) (by rw [hdl]) rfl
      have hout : (downloadRetryLoop (downloadFile crc remote rf0
          (downloadLocalPath root bucket rf0)) rf0 maxR fs 0).err = none := by
        rw [hloop]
      rw [downloadFilesFromBucket_cons_ok crc remote root bucket maxR rf0 rest fs hout]
      have hfs : (downloadRetryLoop (downloadFile crc remote rf0
          (downloadLocalPath root bucket rf0)) rf0 maxR fs 0).fs = fs := by
        rw [hloop, hdl]
      have hbytes : (downloadRetryLoop (downloadFile crc remote rf0
          (downloadLocalPath root bucket rf0)) rf0 maxR fs 0).bytes = 0 := by
        rw [hloop, hdl]
      rw [hfs, hbytes]
      have hrest := downloadFilesFromBucket_all_verified crc remote root bucket maxR rest fs
        (fun rf hrf => hall rf (by simp [hrf]))
      rw [hrest]
      rfl

/-- C5 amended: download idempotence holds only up to destination
collisions.  When a local file at the computed destination already matches
the remote metadata in size and checksum, downloadFile returns
AlreadyExists without opening the byte-stream reader and the per-key loop
treats it as success after one attempt with zero bytes; consequently,
after a successful run of the per-bucket Download Pipeline whose computed
local destinations are pairwise distinct, running it again on the same
mapping and destination transfers zero bytes, changes nothing on disk and
ends in overall success.  (Without that distinctness the claim fails: see
the counterexample, where two photo keys share one destination and every
run re-downloads both.) -/
theorem c5_download_idempotence (crc : List Nat → Nat) (remote : List (String × RemoteObj))
    (root bucket : String) (maxR : Int) (files : List String) (fs fs1 : FS) (b1 : Nat)
    (hnodup : (files.map (downloadLocalPath root bucket)).Nodup)
    (hrun1 : downloadFilesFromBucket crc remote root bucket maxR files fs = (none, fs1, b1)) :
    downloadFilesFromBucket crc remote root bucket maxR files fs1 = (none, fs1, 0) ∧
    (∀ rf lf attrs fsx, lookupAssoc remote rf = some attrs →
      verifyDownloadedFile crc (some attrs) fsx lf = none →
      downloadFile crc remote rf lf fsx
          = ⟨some (.alreadyExistsf ("File " ++ lf ++ " has already been downloaded successfully.")),
              fsx, false, 0⟩ ∧
      downloadRetryLoop (downloadFile crc remote rf lf) rf maxR fsx 0 = ⟨none, fsx, 1, 0⟩) := by
  constructor
  · have hverified := downloadFilesFromBucket_success_verified crc remote root bucket maxR
      files fs hnodup (by rw [hrun1])
    refine downloadFilesFromBucket_all_verified crc remote root bucket maxR files fs1 ?_
    intro rf hrf
    obtain ⟨attrs, hl, hv⟩ := hverified rf hrf
    rw [hrun1] at hv
    exact ⟨attrs, hl, hv⟩
  · intro rf lf attrs fsx hl hv
    have hdl : downloadFile crc remote rf lf fsx
        = ⟨some (.alreadyExistsf ("File " ++ lf ++ " has already been downloaded successfully.")),
            fsx, false, 0⟩ := by
      rw [downloadFile, hl]
      dsimp only
      rw [hv]
    refine ⟨hdl, ?_⟩
    rw [downloadRetryLoop_alreadyExists (downloadFile crc remote rf lf) rf maxR fsx 0
      (.alreadyExistsf ("File " ++ lf ++ " has already been downloaded successfully."))
      (by rw [hdl]) rfl, hdl]

/-- Witness for C5: a one-object bucket with consistent metadata; the first
run downloads the single byte to root/b/k, the second run transfers zero
bytes, changes nothing and succeeds. -/
theorem c5_download_idempotence_witness :
    downloadFilesFromBucket (fun _ => 7) [("k", ⟨1, 7, [9]⟩)] "root" "b" 2 ["k"]
        [("root/b/k", [9])]
      = (none, [("root/b/k", [9])], 0) := by
  have hatt : downloadFile (fun _ => 7) [("k", ⟨1, 7, [9]⟩)] "k"
      (downloadLocalPath "root" "b" "k") [] = ⟨none, [("root/b/k", [9])], true, 1⟩ := rfl
  have hloop := downloadRetryLoop_success
    (downloadFile (fun _ => 7) [("k", ⟨1, 7, [9]⟩)] "k" (downloadLocalPath "root" "b" "k"))
    "k" 2 [] 0 (by rw [hatt])
  have hrun1 : downloadFilesFromBucket (fun _ => 7) [("k", ⟨1, 7, [9]⟩)] "root" "b" 2 ["k"] []
      = (none, [("root/b/k", [9])], 1) := by
    rw [downloadFilesFromBucket_cons_ok (fun _ => 7) [("k", ⟨1, 7, [9]⟩)] "root" "b" 2 "k" [] []
      (by rw [hloop]), hloop, hatt]
    rfl
  exact (c5_download_idempotence (fun _ => 7) [("k", ⟨1, 7, [9]⟩)] "root" "b" 2 ["k"] []
    [("root/b/k", [9])] 1 (by simp) hrun1).1

/-- C5 counterexample: re-running the pipeline after a successful run is
NOT always a zero-byte no-op.  The photo rewrite sends the two distinct
keys 2020-01/x.jpg and 2020-02/x.jpg to the same local destination
root/b/2020/x.jpg; a first run from an empty disk succeeds transferring
2 bytes, and a second run over its resulting disk still succeeds but
transfers 2 bytes again: each key finds the shared file holding the other
key's bytes, fails pre-verification and re-downloads. -/
theorem c5_counterexample :
    downloadLocalPath "root" "b" "2020-01/x.jpg"
        = downloadLocalPath "root" "b" "2020-02/x.jpg" ∧
    downloadFilesFromBucket (fun l => l.headD 0)
        [("2020-01/x.jpg", ⟨1, 1, [1]⟩), ("2020-02/x.jpg", ⟨1, 2, [2]⟩)]
        "root" "b" 2 ["2020-01/x.jpg", "2020-02/x.jpg"] []
      = (none, [("root/b/2020/x.jpg", [2]), ("root/b/2020/x.jpg", [1])], 2) ∧
    downloadFilesFromBucket (fun l => l.headD 0)
        [("2020-01/x.jpg", ⟨1, 1, [1]⟩), ("2020-02/x.jpg", ⟨1, 2, [2]⟩)]
        "root" "b" 2 ["2020-01/x.jpg", "2020-02/x.jpg"]
        [("root/b/2020/x.jpg", [2]), ("root/b/2020/x.jpg", [1])]
      = (none,
          [("root/b/2020/x.jpg", [2]), ("root/b/2020/x.jpg", [1]),
            ("root/b/2020/x.jpg", [2]), ("root/b/2020/x.jpg", [1])], 2) := by
  refine ⟨rfl, ?_, ?_⟩
  · have hatt1 : downloadFile (fun l => l.headD 0)
        [("2020-01/x.jpg", ⟨1, 1, [1]⟩), ("2020-02/x.jpg", ⟨1, 2, [2]⟩)]
        "2020-01/x.jpg" (downloadLocalPath "root" "b" "2020-01/x.jpg") []
        = ⟨none, [("root/b/2020/x.jpg", [1])], true, 1⟩ := rfl
    have hloop1 : downloadRetryLoop (downloadFile (fun l => l.headD 0)
          [("2020-01/x.jpg", ⟨1, 1, [1]⟩), ("2020-02/x.jpg", ⟨1, 2, [2]⟩)]
          "2020-01/x.jpg" (downloadLocalPath "root" "b" "2020-01/x.jpg"))
          "2020-01/x.jpg" 2 [] 0
        = ⟨none, [("root/b/2020/x.jpg", [1])], 1, 1⟩ := by
      rw [downloadRetryLoop_success _ _ _ _ _ (by rw [hatt1]), hatt1]
    have hatt2 : downloadFile (fun l => l.headD 0)
        [("2020-01/x.jpg", ⟨1, 1, [1]⟩), ("2020-02/x.jpg", ⟨1, 2, [2]⟩)]
        "2020-02/x.jpg" (downloadLocalPath "root" "b" "2020-02/x.jpg")
        [("root/b/2020/x.jpg", [1])]
        = ⟨none, [("root/b/2020/x.jpg", [2]), ("root/b/2020/x.jpg", [1])], true, 1⟩ := rfl
    have hloop2 : downloadRetryLoop (downloadFile (fun l => l.headD 0)
          [("2020-01/x.jpg", ⟨1, 1, [1]⟩), ("2020-02/x.jpg", ⟨1, 2, [2]⟩)]
          "2020-02/x.jpg" (downloadLocalPath "root" "b" "2020-02/x.jpg"))
          "2020-02/x.jpg" 2 [("root/b/2020/x.jpg", [1])] 0
        = ⟨none, [("root/b/2020/x.jpg", [2]), ("root/b/2020/x.jpg", [1])], 1, 1⟩ := by
      rw [downloadRetryLoop_success _ _ _ _ _ (by rw [hatt2]), hatt2]
    have htail : downloadFilesFromBucket (fun l => l.headD 0)
        [("2020-01/x.jpg", ⟨1, 1, [1]⟩), ("2020-02/x.jpg", ⟨1, 2, [2]⟩)]
        "root" "b" 2 ["2020-02/x.jpg"] [("root/b/2020/x.jpg", [1])]
        = (none, [("root/b/2020/x.jpg", [2]), ("root/b/2020/x.jpg", [1])], 1) := by
      rw [downloadFilesFromBucket_cons_ok _ _ _ _ _ _ _ _ (by rw [hloop2]), hloop2]
      rfl
    rw [downloadFilesFromBucket_cons_ok _ _ _ _ _ _ _ _ (by rw [hloop1]), hloop1]
    dsimp only
    rw [htail]
    rfl
  · have hatt3 : downloadFile (fun l => l.headD 0)
        [("2020-01/x.jpg", ⟨1, 1, [1]⟩), ("2020-02/x.jpg", ⟨1, 2, [2]⟩)]
        "2020-01/x.jpg" (downloadLocalPath "root" "b" "2020-01/x.jpg")
        [("root/b/2020/x.jpg", [2]), ("root/b/2020/x.jpg", [1])]
        = ⟨none,
            [("root/b/2020/x.jpg", [1]), ("root/b/2020/x.jpg", [2]),
              ("root/b/2020/x.jpg", [1])], true, 1⟩ := rfl
    have hloop3 : downloadRetryLoop (downloadFile (fun l => l.headD 0)
          [("2020-01/x.jpg", ⟨1, 1, [1]⟩), ("2020-02/x.jpg", ⟨1, 2, [2]⟩)]
          "2020-01/x.jpg" (downloadLocalPath "root" "b" "2020-01/x.jpg"))
          "2020-01/x.jpg" 2 [("root/b/2020/x.jpg", [2]), ("root/b/2020/x.jpg", [1])] 0
        = ⟨none,
            [("root/b/2020/x.jpg", [1]), ("root/b/2020/x.jpg", [2]),
              ("root/b/2020/x.jpg", [1])], 1, 1⟩ := by
      rw [downloadRetryLoop_success _ _ _ _ _ (by rw [hatt3]), hatt3]
    have hatt4 : downloadFile (fun l => l.headD 0)
        [("2020-01/x.jpg", ⟨1, 1, [1]⟩), ("2020-02/x.jpg", ⟨1, 2, [2]⟩)]
        "2020-02/x.jpg" (downloadLocalPath "root" "b" "2020-02/x.jpg")
        [("root/b/2020/x.jpg", [1]), ("root/b/2020/x.jpg", [2]), ("root/b/2020/x.jpg", [1])]
        = ⟨none,
            [("root/b/2020/x.jpg", [2]), ("root/b/2020/x.jpg", [1]),
              ("root/b/2020/x.jpg", [2]), ("root/b/2020/x.jpg", [1])], true, 1⟩ := rfl
    have hloop4 : downloadRetryLoop (downloadFile (fun l => l.headD 0)
          [("2020-01/x.jpg", ⟨1, 1, [1]⟩), ("2020-02/x.jpg", ⟨1, 2, [2]⟩)]
          "2020-02/x.jpg" (downloadLocalPath "root" "b" "2020-02/x.jpg"))
          "2020-02/x.jpg" 2
          [("root/b/2020/x.jpg", [1]), ("root/b/2020/x.jpg", [2]), ("root/b/2020/x.jpg", [1])] 0
        = ⟨none,
            [("root/b/2020/x.jpg", [2]), ("root/b/2020/x.jpg", [1]),
              ("root/b/2020/x.jpg", [2]), ("root/b/2020/x.jpg", [1])], 1, 1⟩ := by
      rw [downloadRetryLoop_success _ _ _ _ _ (by rw [hatt4]), hatt4]
    have htail2 : downloadFilesFromBucket (fun l => l.headD 0)
        [("2020-01/x.jpg", ⟨1, 1, [1]⟩), ("2020-02/x.jpg", ⟨1, 2, [2]⟩)]
        "root" "b" 2 ["2020-02/x.jpg"]
        [("root/b/2020/x.jpg", [1]), ("root/b/2020/x.jpg", [2]), ("root/b/2020/x.jpg", [1])]
        = (none,
            [("root/b/2020/x.jpg", [2]), ("root/b/2020/x.jpg", [1]),
              ("root/b/2020/x.jpg", [2]), ("root/b/2020/x.jpg", [1])], 1) := by
      rw [downloadFilesFromBucket_cons_ok _ _ _ _ _ _ _ _ (by rw [hloop4]), hloop4]
      rfl
    rw [downloadFilesFromBucket_cons_ok _ _ _ _ _ _ _ _ (by rw [hloop3]), hloop3]
    dsimp only
    rw [htail2]
    rfl

/- Resume Store (saveInProgressFile / loadInProgressFile).  The struct
   BucketAndFiles from src/types.go: Files is a Go slice, which is
   nullable; a nil slice is encoded as JSON null and decoded back to nil,
   so it is modelled as an Option. -/
structure BucketAndFiles where
  bucketName : String
  files : Option (List String)
  deriving Repr, DecidableEq

/- The two brace characters, kept as named constants. -/
def lbrace : Char := Char.ofNat 123

def rbrace : Char := Char.ofNat 125

def toHexDigit (n : Nat) : Char := if n < 10 then Char.ofNat (48 + n) else Char.ofNat (87 + n)

def fromHexDigit (c : Char) : Option Nat :=
  if '0' ≤ c ∧ c ≤ '9' then some (c.toNat - 48)
  else if 'a' ≤ c ∧ c ≤ 'f' then some (c.toNat - 87)
  else if 'A' ≤ c ∧ c ≤ 'F' then some (c.toNat - 55)
  else none

/- encoding/json string escaping as performed by json.Encoder with its
   default HTML escaping: quote, backslash, the three HTML characters,
   control characters and the two Unicode line separators are escaped,
   every other character is emitted as is. -/
def encodeChar (c : Char) : List Char :=
  if c = '"' then ['\\', '"']
  else if c = '\\' then ['\\', '\\']
  else if c = '<' then ['\\', 'u', '0', '0', '3', 'c']
  else if c = '>' then ['\\', 'u', '0', '0', '3', 'e']
  else if c = '&' then ['\\', 'u', '0', '0', '2', '6']
  else if c = '\n' then ['\\', 'n']
  else if c = '\r' then ['\\', 'r']
  else if c = '\t' then ['\\', 't']
  else if c.toNat < 32 then
    ['\\', 'u', '0', '0', toHexDigit (c.toNat / 16), toHexDigit (c.toNat % 16)]
  else if c.toNat = 8232 then ['\\', 'u', '2', '0', '2', '8']
  else if c.toNat = 8233 then ['\\', 'u', '2', '0', '2', '9']
  else [c]

def encodeStringBody : List Char → List Char
  | [] => []
  | c :: cs => encodeChar c ++ encodeStringBody cs

def encodeJsonString (s : String) : List Char :=
  '"' :: encodeStringBody s.data ++ ['"']

def encodeStringsTail : List String → List Char
  | [] => []
  | f :: rest => ',' :: encodeJsonString f ++ encodeStringsTail rest

/- A Go []string: nil renders as null, otherwise a JSON array. -/
def encodeFiles : Option (List String) → List Char
  | none => ['n', 'u', 'l', 'l']
  | some [] => ['[', ']']
  | some (f :: rest) => '[' :: (encodeJsonString f ++ encodeStringsTail rest) ++ [']']

/- One BucketAndFiles struct, fields in declaration order with the json
   tags bucket_name and files. -/
def encodeBucketAndFiles (b : BucketAndFiles) : List Char :=
  ([lbrace] ++ '"' :: "bucket_name".data ++ ['"', ':', '"'])
    ++ encodeStringBody b.bucketName.data
    ++ ['"']
    ++ (',' :: '"' :: "files".data ++ ['"', ':'])
    ++ encodeFiles b.files
    ++ [rbrace]

def encodeMappingTail : List BucketAndFiles → List Char
  | [] => []
  | b :: rest => ',' :: encodeBucketAndFiles b ++ encodeMappingTail rest

def encodeMapping : List BucketAndFiles → List Char
  | [] => ['[', ']']
  | b :: rest => '[' :: (encodeBucketAndFiles b ++ encodeMappingTail rest) ++ [']']

/- json string scanning: the body of a quoted string up to and past the
   closing quote, undoing the escapes of the encoder (the general decoder
   also accepts \/, \b and \f and arbitrary \uXXXX). -/
def parseStringBody : List Char → Option (List Char × List Char)
  | [] => none
  | c :: rest =>
      if c = '"' then some ([], rest)
      else if c = '\\' then
        match rest with
        | [] => none
        | e :: rest2 =>
            if e = '"' then (parseStringBody rest2).map (fun r => ('"' :: r.1, r.2))
            else if e = '\\' then (parseStringBody rest2).map (fun r => ('\\' :: r.1, r.2))
            else if e = '/' then (parseStringBody rest2).map (fun r => ('/' :: r.1, r.2))
            else if e = 'n' then (parseStringBody rest2).map (fun r => ('\n' :: r.1, r.2))
            else if e = 'r' then (parseStringBody rest2).map (fun r => ('\r' :: r.1, r.2))
            else if e = 't' then (parseStringBody rest2).map (fun r => ('\t' :: r.1, r.2))
            else if e = 'b' then (parseStringBody rest2).map (fun r => (Char.ofNat 8 :: r.1, r.2))
            else if e = 'f' then (parseStringBody rest2).map (fun r => (Char.ofNat 12 :: r.1, r.2))
            else if e = 'u' then
              match rest2 with
              | h1 :: h2 :: h3 :: h4 :: rest3 =>
                  match fromHexDigit h1 with
                  | none => none
                  | some a =>
                      match fromHexDigit h2 with
                      | none => none
                      | some b =>
                          match fromHexDigit h3 with
                          | none => none
                          | some c2 =>
                              match fromHexDigit h4 with
                              | none => none
                              | some d =>
                                  (parseStringBody rest3).map
                                    (fun r => (Char.ofNat (4096 * a + 256 * b + 16 * c2 + d) :: r.1, r.2))
              | _ => none
            else none
      else (parseStringBody rest).map (fun r => (c :: r.1, r.2))

lemma parse_map_inv {x : List Char} {ch : Char} {s rest : List Char}
    (h : (parseStringBody x).map (fun r => (ch :: r.1, r.2)) = some (s, rest)) :
    ∃ s', parseStringBody x = some (s', rest) ∧ s = ch :: s' := by
  match hx : parseStringBody x with
  | none => rw [hx] at h; simp at h
  | some (s', r') =>
      rw [hx] at h
      simp only [Option.map_some', Option.some.injEq, Prod.mk.injEq] at h
      obtain ⟨h1, h2⟩ := h
      exact ⟨s', by rw [h2], h1.symm⟩

lemma parseStringBody_length_lt :
    ∀ (cs s rest : List Char), parseStringBody cs = some (s, rest) → rest.length < cs.length
  | [], s, rest, h => by simp [parseStringBody.eq_def] at h
  | c :: cs, s, rest, h => by
      rw [parseStringBody.eq_def] at h
      dsimp only at h
      by_cases h1 : c = '"'
      · rw [if_pos h1] at h
        obtain ⟨-, h2⟩ := Prod.mk.injEq .. ▸ Option.some.inj h
        simp [← h2]
      · rw [if_neg h1] at h
        by_cases h2 : c = '\\'
        · rw [if_pos h2] at h
          cases cs with
          | nil => simp at h
          | cons e rest2 =>
              dsimp only at h
              split_ifs at h with he1 he2 he3 he4 he5 he6 he7 he8 he9
              rotate_left 8
              · match rest2, h with
                | [], h => simp at h
                | [x1], h => simp at h
                | [x1, x2], h => simp at h
                | [x1, x2, x3], h => simp at h
                | x1 :: x2 :: x3 :: x4 :: rest3, h =>
                    dsimp only at h
                    match hx1 : fromHexDigit x1 with
                    | none => rw [hx1] at h; simp at h
                    | some a =>
                      rw [hx1] at h
                      dsimp only at h
                      match hx2 : fromHexDigit x2 with
                      | none => rw [hx2] at h; simp at h
                      | some b =>
                        rw [hx2] at h
                        dsimp only at h
                        match hx3 : fromHexDigit x3 with
                        | none => rw [hx3] at h; simp at h
                        | some c2 =>
                          rw [hx3] at h
                          dsimp only at h
                          match hx4 : fromHexDigit x4 with
                          | none => rw [hx4] at h; simp at h
                          | some d =>
                            rw [hx4] at h
                            dsimp only at h
                            obtain ⟨s', hx, -⟩ := parse_map_inv h
                            have hlt := parseStringBody_length_lt rest3 s' rest hx
                            simp only [List.length_cons]
                            omega
              all_goals
                (obtain ⟨s', hx, -⟩ := parse_map_inv h;
                 have hlt := parseStringBody_length_lt rest2 s' rest hx;
                 simp only [List.length_cons];
                 omega)
        · rw [if_neg h2] at h
          obtain ⟨s', hx, -⟩ := parse_map_inv h
          have hlt := parseStringBody_length_lt cs s' rest hx
          simp only [List.length_cons]
          omega

lemma mk_data (s : String) : String.mk s.data = s := rfl

lemma fromHex_toHex (n : Nat) (h : n < 16) : fromHexDigit (toHexDigit n) = some n := by
  interval_cases n <;> decide

/- Unfolding equations of parseStringBody, one per branch shape. -/
lemma psb_quote (rest : List Char) : parseStringBody ('"' :: rest) = some ([], rest) := by
  rw [parseStringBody.eq_def]
  try dsimp only
  rw [if_pos rfl]

lemma psb_plain (c : Char) (h1 : ¬c = '"') (h2 : ¬c = '\\') (cs : List Char) :
    parseStringBody (c :: cs) = (parseStringBody cs).map (fun r => (c :: r.1, r.2)) := by
  rw [parseStringBody.eq_def]
  try dsimp only
  rw [if_neg h1, if_neg h2]

lemma psb_esc_quote (cs : List Char) :
    parseStringBody ('\\' :: '"' :: cs) = (parseStringBody cs).map (fun r => ('"' :: r.1, r.2)) := by
  rw [parseStringBody.eq_def]
  try dsimp only
  rw [if_neg (by decide), if_pos rfl]
  try dsimp only
  rw [if_pos rfl]

lemma psb_esc_bs (cs : List Char) :
    parseStringBody ('\\' :: '\\' :: cs) = (parseStringBody cs).map (fun r => ('\\' :: r.1, r.2)) := by
  rw [parseStringBody.eq_def]
  try dsimp only
  rw [if_neg (by decide), if_pos rfl]
  try dsimp only
  rw [if_neg (by decide), if_pos rfl]

lemma psb_esc_n (cs : List Char) :
    parseStringBody ('\\' :: 'n' :: cs) = (parseStringBody cs).map (fun r => ('\n' :: r.1, r.2)) := by
  rw [parseStringBody.eq_def]
  try dsimp only
  rw [if_neg (by decide), if_pos rfl]
  try dsimp only
  rw [if_neg (by decide), if_neg (by decide), if_neg (by decide), if_pos rfl]

lemma psb_esc_r (cs : List Char) :
    parseStringBody ('\\' :: 'r' :: cs) = (parseStringBody cs).map (fun r => ('\r' :: r.1, r.2)) := by
  rw [parseStringBody.eq_def]
  try dsimp only
  rw [if_neg (by decide), if_pos rfl]
  try dsimp only
  rw [if_neg (by decide), if_neg (by decide), if_neg (by decide), if_neg (by decide),
    if_pos rfl]

lemma psb_esc_t (cs : List Char) :
    parseStringBody ('\\' :: 't' :: cs) = (parseStringBody cs).map (fun r => ('\t' :: r.1, r.2)) := by
  rw [parseStringBody.eq_def]
  try dsimp only
  rw [if_neg (by decide), if_pos rfl]
  try dsimp only
  rw [if_neg (by decide), if_neg (by decide), if_neg (by decide), if_neg (by decide),
    if_neg (by decide), if_pos rfl]

lemma psb_u (h1 h2 h3 h4 : Char) (a b c2 d : Nat) (cs : List Char)
    (ha : fromHexDigit h1 = some a) (hb : fromHexDigit h2 = some b)
    (hc : fromHexDigit h3 = some c2) (hd : fromHexDigit h4 = some d) :
    parseStringBody ('\\' :: 'u' :: h1 :: h2 :: h3 :: h4 :: cs)
      = (parseStringBody cs).map
          (fun r => (Char.ofNat (4096 * a + 256 * b + 16 * c2 + d) :: r.1, r.2)) := by
  rw [parseStringBody.eq_def]
  try dsimp only
  rw [if_neg (by decide), if_pos rfl]
  try dsimp only
  rw [if_neg (by decide), if_neg (by decide), if_neg (by decide), if_neg (by decide),
    if_neg (by decide), if_neg (by decide), if_neg (by decide), if_neg (by decide),
    if_pos rfl]
  try dsimp only
  rw [ha]
  try dsimp only
  rw [hb]
  try dsimp only
  rw [hc]
  try dsimp only
  rw [hd]

/- Round trip at the string level: scanning back an escaped body recovers
   the original characters and leaves everything past the closing quote. -/
lemma parseStringBody_encode : ∀ (s rest : List Char),
    parseStringBody (encodeStringBody s ++ '"' :: rest) = some (s, rest)
  | [], rest => psb_quote rest
  | c :: s, rest => by
      have IH := parseStringBody_encode s rest
      show parseStringBody ((encodeChar c ++ encodeStringBody s) ++ '"' :: rest) = _
      rw [List.append_assoc]
      by_cases hq : c = '"'
      · subst hq
        rw [show encodeChar '"' = ['\\', '"'] from by decide]
        simp only [List.cons_append, List.nil_append]
        rw [psb_esc_quote, IH]
        try rfl
      by_cases hbs : c = '\\'
      · subst hbs
        rw [show encodeChar '\\' = ['\\', '\\'] from by decide]
        simp only [List.cons_append, List.nil_append]
        rw [psb_esc_bs, IH]
        try rfl
      by_cases hlt : c = '<'
      · subst hlt
        rw [show encodeChar '<' = ['\\', 'u', '0', '0', '3', 'c'] from by decide]
        simp only [List.cons_append, List.nil_append]
        rw [psb_u '0' '0' '3' 'c' 0 0 3 12 _ (by decide) (by decide) (by decide) (by decide), IH]
        simp only [Option.map_some']
      by_cases hgt : c = '>'
      · subst hgt
        rw [show encodeChar '>' = ['\\', 'u', '0', '0', '3', 'e'] from by decide]
        simp only [List.cons_append, List.nil_append]
        rw [psb_u '0' '0' '3' 'e' 0 0 3 14 _ (by decide) (by decide) (by decide) (by decide), IH]
        simp only [Option.map_some']
      by_cases hamp : c = '&'
      · subst hamp
        rw [show encodeChar '&' = ['\\', 'u', '0', '0', '2', '6'] from by decide]
        simp only [List.cons_append, List.nil_append]
        rw [psb_u '0' '0' '2' '6' 0 0 2 6 _ (by decide) (by decide) (by decide) (by decide), IH]
        simp only [Option.map_some']
      by_cases hn : c = '\n'
      · subst hn
        rw [show encodeChar '\n' = ['\\', 'n'] from by decide]
        simp only [List.cons_append, List.nil_append]
        rw [psb_esc_n, IH]
        try rfl
      by_cases hr : c = '\r'
      · subst hr
        rw [show encodeChar '\r' = ['\\', 'r'] from by decide]
        simp only [List.cons_append, List.nil_append]
        rw [psb_esc_r, IH]
        try rfl
      by_cases ht : c = '\t'
      · subst ht
        rw [show encodeChar '\t' = ['\\', 't'] from by decide]
        simp only [List.cons_append, List.nil_append]
        rw [psb_esc_t, IH]
        try rfl
      by_cases hctrl : c.toNat < 32
      · have he : encodeChar c
            = ['\\', 'u', '0', '0', toHexDigit (c.toNat / 16), toHexDigit (c.toNat % 16)] := by
          rw [encodeChar, if_neg hq, if_neg hbs, if_neg hlt, if_neg hgt, if_neg hamp,
            if_neg hn, if_neg hr, if_neg ht, if_pos hctrl]
        rw [he]
        simp only [List.cons_append, List.nil_append]
        rw [psb_u '0' '0' _ _ 0 0 (c.toNat / 16) (c.toNat % 16) _ (by decide) (by decide)
          (fromHex_toHex _ (by omega)) (fromHex_toHex _ (by omega)), IH]
        simp only [Option.map_some']
        rw [show 4096 * 0 + 256 * 0 + 16 * (c.toNat / 16) + c.toNat % 16 = c.toNat from by omega,
          Char.ofNat_toNat]
      by_cases h28 : c.toNat = 8232
      · have he : encodeChar c = ['\\', 'u', '2', '0', '2', '8'] := by
          rw [encodeChar, if_neg hq, if_neg hbs, if_neg hlt, if_neg hgt, if_neg hamp,
            if_neg hn, if_neg hr, if_neg ht, if_neg hctrl, if_pos h28]
        rw [he]
        simp only [List.cons_append, List.nil_append]
        rw [psb_u '2' '0' '2' '8' 2 0 2 8 _ (by decide) (by decide) (by decide) (by decide), IH]
        simp only [Option.map_some']
        rw [show 4096 * 2 + 256 * 0 + 16 * 2 + 8 = (8232 : Nat) from by norm_num, ← h28,
          Char.ofNat_toNat]
      by_cases h29 : c.toNat = 8233
      · have he : encodeChar c = ['\\', 'u', '2', '0', '2', '9'] := by
          rw [encodeChar, if_neg hq, if_neg hbs, if_neg hlt, if_neg hgt, if_neg hamp,
            if_neg hn, if_neg hr, if_neg ht, if_neg hctrl, if_neg h28, if_pos h29]
        rw [he]
        simp only [List.cons_append, List.nil_append]
        rw [psb_u '2' '0' '2' '9' 2 0 2 9 _ (by decide) (by decide) (by decide) (by decide), IH]
        simp only [Option.map_some']
        rw [show 4096 * 2 + 256 * 0 + 16 * 2 + 9 = (8233 : Nat) from by norm_num, ← h29,
          Char.ofNat_toNat]
      · have he : encodeChar c = [c] := by
          rw [encodeChar, if_neg hq, if_neg hbs, if_neg hlt, if_neg hgt, if_neg hamp,
            if_neg hn, if_neg hr, if_neg ht, if_neg hctrl, if_neg h28, if_neg h29]
        rw [he]
        simp only [List.cons_append, List.nil_append]
        rw [psb_plain c hq hbs, IH]
        try rfl

/- Strips an exact literal token sequence off the front of the input. -/
def stripExact : List Char → List Char → Option (List Char)
  | [], cs => some cs
  | _ :: _, [] => none
  | p :: ps, c :: cs => if c = p then stripExact ps cs else none

lemma stripExact_append : ∀ (ps rest : List Char), stripExact ps (ps ++ rest) = some rest
  | [], _ => rfl
  | p :: ps, rest => by
      simp only [List.cons_append, stripExact, if_pos rfl]
      exact stripExact_append ps rest

/- The tail of a JSON array of strings after its first element: a closing
   bracket, or a comma and another quoted string, repeated.  The decoder
   loop is bounded by the remaining input length, threaded as fuel: each
   iteration consumes at least one character, so any fuel of at least the
   input length behaves as the unbounded loop. -/
def parseElemsTailAux : Nat → List Char → Option (List String × List Char)
  | 0, _ => none
  | _ + 1, [] => none
  | fuel + 1, c :: rest =>
      if c = ']' then some ([], rest)
      else if c = ',' then
        match rest with
        | [] => none
        | q :: rest2 =>
            if q = '"' then
              match parseStringBody rest2 with
              | none => none
              | some (sb, rest3) =>
                  match parseElemsTailAux fuel rest3 with
                  | none => none
                  | some (ss, rest4) => some (String.mk sb :: ss, rest4)
            else none
      else none

lemma parseElemsTailAux_rb (fuel : Nat) (rest : List Char) :
    parseElemsTailAux (fuel + 1) (']' :: rest) = some ([], rest) := by
  simp [parseElemsTailAux]

lemma parseElemsTailAux_step (fuel : Nat) (cs cs2 cs3 : List Char) (sb : List Char)
    (ss : List String) (h1 : parseStringBody cs = some (sb, cs2))
    (h2 : parseElemsTailAux fuel cs2 = some (ss, cs3)) :
    parseElemsTailAux (fuel + 1) (',' :: '"' :: cs) = some (String.mk sb :: ss, cs3) := by
  rw [parseElemsTailAux]
  rw [if_neg (by decide), if_pos rfl]
  try dsimp only
  rw [if_pos rfl, h1]
  try dsimp only
  rw [h2]

lemma parseElemsTailAux_encode : ∀ (fs : List String) (rest : List Char) (fuel : Nat),
    (encodeStringsTail fs ++ ']' :: rest).length ≤ fuel →
    parseElemsTailAux fuel (encodeStringsTail fs ++ ']' :: rest) = some (fs, rest)
  | [], rest, fuel, h => by
      match fuel, h with
      | fuel + 1, h => exact parseElemsTailAux_rb fuel rest
  | f :: fs, rest, fuel, h => by
      have hsplit : encodeStringsTail (f :: fs) ++ ']' :: rest
          = ',' :: '"' :: (encodeStringBody f.data ++ '"' :: (encodeStringsTail fs ++ ']' :: rest)) := by
        simp [encodeStringsTail, encodeJsonString]
      rw [hsplit] at h ⊢
      match fuel, h with
      | fuel + 1, h =>
        have hb : (encodeStringsTail fs ++ ']' :: rest).length ≤ fuel := by
          simp only [List.length_cons, List.length_append] at h ⊢
          omega
        have IH := parseElemsTailAux_encode fs rest fuel hb
        rw [parseElemsTailAux_step fuel _ _ _ f.data fs
          (parseStringBody_encode f.data (encodeStringsTail fs ++ ']' :: rest)) IH, mk_data]

/- The value of the files field: a Go []string, either JSON null (a nil
   slice) or an array of strings. -/
def parseFilesValue (fuel : Nat) : List Char → Option (Option (List String) × List Char)
  | [] => none
  | c :: rest =>
      if c = 'n' then
        match stripExact ['u', 'l', 'l'] rest with
        | none => none
        | some rest2 => some (none, rest2)
      else if c = '[' then
        match rest with
        | [] => none
        | r :: rest2 =>
            if r = ']' then some (some [], rest2)
            else if r = '"' then
              match parseStringBody rest2 with
              | none => none
              | some (sb, rest3) =>
                  match parseElemsTailAux fuel rest3 with
                  | none => none
                  | some (ss, rest4) => some (some (String.mk sb :: ss), rest4)
            else none
      else none

lemma parseFilesValue_encode (fo : Option (List String)) (rest : List Char) (fuel : Nat)
    (h : (encodeFiles fo ++ rest).length ≤ fuel) :
    parseFilesValue fuel (encodeFiles fo ++ rest) = some (fo, rest) := by
  match fo with
  | none =>
      have hul : stripExact ['u', 'l', 'l'] ('u' :: 'l' :: 'l' :: rest) = some rest :=
        stripExact_append ['u', 'l', 'l'] rest
      simp [encodeFiles, parseFilesValue, hul]
  | some [] => simp [encodeFiles, parseFilesValue]
  | some (f :: fs) =>
      have hsplit : encodeFiles (some (f :: fs)) ++ rest
          = '[' :: '"' :: (encodeStringBody f.data ++ '"' :: (encodeStringsTail fs ++ ']' :: rest)) := by
        simp [encodeFiles, encodeJsonString]
      rw [hsplit] at h ⊢
      rw [parseFilesValue]
      rw [if_neg (by decide), if_pos rfl]
      try dsimp only
      rw [if_neg (by decide), if_pos rfl,
        parseStringBody_encode f.data (encodeStringsTail fs ++ ']' :: rest)]
      try dsimp only
      have hb : (encodeStringsTail fs ++ ']' :: rest).length ≤ fuel := by
        simp only [List.length_cons, List.length_append] at h ⊢
        omega
      rw [parseElemsTailAux_encode fs rest fuel hb]
      try dsimp only
      try rw [mk_data]

/- One BucketAndFiles object: both json field names in declaration order,
   a quoted string for bucket_name, then the files value. -/
def parseBucketAndFiles (fuel : Nat) (cs : List Char) : Option (BucketAndFiles × List Char) :=
  match stripExact (lbrace :: '"' :: "bucket_name".data ++ ['"', ':', '"']) cs with
  | none => none
  | some rest =>
      match parseStringBody rest with
      | none => none
      | some (nm, rest2) =>
          match stripExact (',' :: '"' :: "files".data ++ ['"', ':']) rest2 with
          | none => none
          | some rest3 =>
              match parseFilesValue fuel rest3 with
              | none => none
              | some (files, rest4) =>
                  match stripExact [rbrace] rest4 with
                  | none => none
                  | some rest5 => some (⟨String.mk nm, files⟩, rest5)

lemma parseBucketAndFiles_encode (b : BucketAndFiles) (rest : List Char) (fuel : Nat)
    (h : (encodeBucketAndFiles b ++ rest).length ≤ fuel) :
    parseBucketAndFiles fuel (encodeBucketAndFiles b ++ rest) = some (b, rest) := by
  have hsplit : encodeBucketAndFiles b ++ rest
      = (lbrace :: '"' :: "bucket_name".data ++ ['"', ':', '"'])
        ++ (encodeStringBody b.bucketName.data
            ++ '"' :: ((',' :: '"' :: "files".data ++ ['"', ':'])
            ++ (encodeFiles b.files ++ ([rbrace] ++ rest)))) := by
    simp [encodeBucketAndFiles]
  have hfv : (encodeFiles b.files ++ ([rbrace] ++ rest)).length ≤ fuel := by
    rw [hsplit] at h
    simp only [List.length_append, List.length_cons] at h ⊢
    omega
  rw [hsplit, parseBucketAndFiles, stripExact_append]
  try dsimp only
  rw [parseStringBody_encode]
  try dsimp only
  rw [stripExact_append]
  try dsimp only
  rw [parseFilesValue_encode b.files ([rbrace] ++ rest) fuel hfv]
  try dsimp only
  rw [stripExact_append]
  try dsimp only
  try rw [mk_data]

lemma parseBucketAndFiles_encode_len (b : BucketAndFiles) :
    1 ≤ (encodeBucketAndFiles b).length := by
  simp [encodeBucketAndFiles]

/- The tail of the top level array of BucketAndFiles objects, again with
   the loop bounded by the remaining input length as fuel. -/
def parseMappingTailAux : Nat → List Char → Option (List BucketAndFiles × List Char)
  | 0, _ => none
  | _ + 1, [] => none
  | fuel + 1, c :: rest =>
      if c = ']' then some ([], rest)
      else if c = ',' then
        match parseBucketAndFiles fuel rest with
        | none => none
        | some (b, rest2) =>
            match parseMappingTailAux fuel rest2 with
            | none => none
            | some (bs, rest3) => some (b :: bs, rest3)
      else none

lemma parseMappingTailAux_encode : ∀ (bs : List BucketAndFiles) (rest : List Char) (fuel : Nat),
    (encodeMappingTail bs ++ ']' :: rest).length ≤ fuel →
    parseMappingTailAux fuel (encodeMappingTail bs ++ ']' :: rest) = some (bs, rest)
  | [], rest, fuel, h => by
      match fuel, h with
      | fuel + 1, h => simp [encodeMappingTail, parseMappingTailAux]
  | b :: bs, rest, fuel, h => by
      have hsplit : encodeMappingTail (b :: bs) ++ ']' :: rest
          = ',' :: (encodeBucketAndFiles b ++ (encodeMappingTail bs ++ ']' :: rest)) := by
        simp [encodeMappingTail]
      rw [hsplit] at h ⊢
      match fuel, h with
      | fuel + 1, h =>
        simp only [List.length_cons, List.length_append] at h
        have hb : (encodeBucketAndFiles b ++ (encodeMappingTail bs ++ ']' :: rest)).length ≤ fuel := by
          simp only [List.length_append, List.length_cons]
          omega
        have ht : (encodeMappingTail bs ++ ']' :: rest).length ≤ fuel := by
          have := parseBucketAndFiles_encode_len b
          simp only [List.length_append, List.length_cons]
          omega
        rw [parseMappingTailAux]
        rw [if_neg (by decide), if_pos rfl,
          parseBucketAndFiles_encode b (encodeMappingTail bs ++ ']' :: rest) fuel hb]
        try dsimp only
        rw [parseMappingTailAux_encode bs rest fuel ht]

/- The whole in progress file payload: a []BucketAndFiles, either JSON
   null (a nil slice) or an array of objects. -/
def parseMapping (fuel : Nat) : List Char → Option (List BucketAndFiles × List Char)
  | [] => none
  | c :: rest =>
      if c = 'n' then
        match stripExact ['u', 'l', 'l'] rest with
        | none => none
        | some rest2 => some ([], rest2)
      else if c = '[' then
        match rest with
        | [] => none
        | r :: rest2 =>
            if r = ']' then some ([], rest2)
            else
              match parseBucketAndFiles fuel (r :: rest2) with
              | none => none
              | some (b, rest3) =>
                  match parseMappingTailAux fuel rest3 with
                  | none => none
                  | some (bs, rest4) => some (b :: bs, rest4)
      else none

lemma parseMapping_encode (m : List BucketAndFiles) (rest : List Char) (fuel : Nat)
    (h : (encodeMapping m ++ rest).length ≤ fuel) :
    parseMapping fuel (encodeMapping m ++ rest) = some (m, rest) := by
  match m with
  | [] => simp [encodeMapping, parseMapping]
  | b :: bs =>
      have hsplit : encodeMapping (b :: bs) ++ rest
          = '[' :: (encodeBucketAndFiles b ++ (encodeMappingTail bs ++ ']' :: rest)) := by
        simp [encodeMapping]
      have hhead : encodeBucketAndFiles b ++ (encodeMappingTail bs ++ ']' :: rest)
          = lbrace :: (('"' :: "bucket_name".data ++ ['"', ':', '"'])
            ++ (encodeStringBody b.bucketName.data
            ++ ['"'] ++ ((',' :: '"' :: "files".data ++ ['"', ':'])
            ++ (encodeFiles b.files ++ ([rbrace]
            ++ (encodeMappingTail bs ++ ']' :: rest)))))) := by
        simp [encodeBucketAndFiles]
      rw [hsplit] at h ⊢
      simp only [List.length_cons, List.length_append] at h
      have hb : (encodeBucketAndFiles b ++ (encodeMappingTail bs ++ ']' :: rest)).length ≤ fuel := by
        simp only [List.length_append, List.length_cons]
        omega
      have ht : (encodeMappingTail bs ++ ']' :: rest).length ≤ fuel := by
        have := parseBucketAndFiles_encode_len b
        simp only [List.length_append, List.length_cons]
        omega
      rw [parseMapping.eq_def]
      try dsimp only
      rw [if_neg (by decide), if_pos rfl, hhead]
      try dsimp only
      rw [if_neg (by decide), ← hhead,
        parseBucketAndFiles_encode b (encodeMappingTail bs ++ ']' :: rest) fuel hb]
      try dsimp only
      rw [parseMappingTailAux_encode bs rest fuel ht]

/- File store for the in progress file, from paths to contents.
   os.Create truncates, so a fresh write shadows earlier content. -/
abbrev Store : Type := List (String × List Char)

/- saveInProgressFile: os.Create the file, then json.Encoder.Encode the
   slice, which writes the JSON value followed by a newline. -/
def saveInProgressFile (store : Store) (filePath : String)
    (data : List BucketAndFiles) : Store :=
  (filePath, encodeMapping data ++ ['\n']) :: store

/- loadInProgressFile: open the file and json.Decoder.Decode a single
   []BucketAndFiles value off the stream (trailing data, such as the
   newline Encode wrote, is not consumed); a missing file or malformed
   json is an error. -/
def loadInProgressFile (store : Store) (filePath : String) :
    Except GoErr (List BucketAndFiles) :=
  match lookupAssoc store filePath with
  | none => Except.error (.otherErr ("unable to open in progress file at " ++ filePath))
  | some content =>
      match parseMapping content.length content with
      | none =>
          Except.error (.otherErr ("unable to decode in progress file at " ++ filePath))
      | some (data, _) => Except.ok data

/-- C6: Resume Store round-trip: for every non-empty list of BucketAndFiles
values — bucket names may contain non-ASCII characters, file lists may be
empty or absent (a nil slice) — loading the in progress file right after
saving the list to it returns exactly that list, whatever the store held
before. -/
theorem c6_resume_store_roundtrip (store : Store) (filePath : String)
    (mapping : List BucketAndFiles) (hne : mapping ≠ []) :
    loadInProgressFile (saveInProgressFile store filePath mapping) filePath
      = Except.ok mapping := by
  have hl : lookupAssoc ((filePath, encodeMapping mapping ++ ['\n']) :: store) filePath
      = some (encodeMapping mapping ++ ['\n']) := by
    simp [lookupAssoc]
  rw [saveInProgressFile, loadInProgressFile, hl]
  try dsimp only
  rw [parseMapping_encode mapping ['\n'] (encodeMapping mapping ++ ['\n']).length
    (Nat.le_refl _)]

/-- Witness for C6: a three-entry mapping exercising a non-ASCII bucket
name, a nil file list, an empty file list and file names needing escapes;
saving it over an empty store and loading it back returns it unchanged. -/
theorem c6_resume_store_roundtrip_witness :
    ([⟨"héllo", none⟩, ⟨"a<b", some []⟩, ⟨"c", some ["x\"y", "z"]⟩]
        : List BucketAndFiles) ≠ []
    ∧ loadInProgressFile
        (saveInProgressFile [] "./downloadsInProgress.json"
          [⟨"héllo", none⟩, ⟨"a<b", some []⟩, ⟨"c", some ["x\"y", "z"]⟩])
        "./downloadsInProgress.json"
      = Except.ok [⟨"héllo", none⟩, ⟨"a<b", some []⟩, ⟨"c", some ["x\"y", "z"]⟩] :=
  ⟨by simp, c6_resume_store_roundtrip [] "./downloadsInProgress.json"
    [⟨"héllo", none⟩, ⟨"a<b", some []⟩, ⟨"c", some ["x\"y", "z"]⟩] (by simp)⟩

end VB
